import Mathlib

/-!
# Verification of the tanstack-ai Python package core

Shallow embedding of `tanstack_ai.converter` (StreamChunkConverter),
`tanstack_ai.tool_manager` (ToolCallManager, execute_tool_calls) and
`tanstack_ai.chat` (ChatEngine), translated from the Python source.

Modelling conventions:
* Python dicts used as maps are insertion-ordered association lists.
* `json.loads` / `json.dumps` are external library calls; they are taken as
  parameters `parse : String → Option Json` (`none` = raised
  `JSONDecodeError`) and `dumps : Json → String`.  `uuid`/time-based id
  generation is taken as a parameter `idGen : Nat → String` applied to a
  counter threaded through the state.
* Constant per-run fields (`model`, `timestamp`) that the code copies
  verbatim onto every emitted event are omitted from the event model.
* Python truthiness on strings (`if s:`) is modelled as `s ≠ ""`, on
  optional strings as "present and non-empty", on lists as non-emptiness.
* A Python exception propagating out of a function is modelled as
  `Except.error`; instrumentation lists record calls to tool `execute`
  capabilities so that "never invoked" is observable.
-/

/-- Minimal JSON value type for tool inputs/outputs. -/
inductive Json where
  | null : Json
  | bool (b : Bool) : Json
  | num (n : Int) : Json
  | str (s : String) : Json
  | arr (elems : List Json) : Json
  | obj (entries : List (String × Json)) : Json

/-- The empty JSON object `{}`. -/
def Json.emptyObj : Json := Json.obj []

/-- `parsed_input = {}` / `try: parsed = json.loads(s) except JSONDecodeError: parsed = {}`
guarded by `if s:` — converter.py lines 214-219 and 393-398. -/
def parseOrEmpty (parse : String → Option Json) (s : String) : Json :=
  if s = "" then Json.emptyObj else (parse s).getD Json.emptyObj

/-! ## Converter data model (converter.py) -/

/-- One entry of `StreamChunkConverter.tool_calls_map`. -/
structure ToolEntry where
  id : String
  name : String
  input : String
  started : Bool
deriving DecidableEq

/-- Canonical AG-UI event as emitted by the converter
(`model`/`timestamp` fields omitted: constants per run). -/
inductive AGEvent where
  | runStarted (runId : String)
  | textMessageStart (messageId : String)
  | textMessageContent (messageId delta content : String)
  | textMessageEnd (messageId : String)
  | toolCallStart (toolCallId toolName : String) (index : Nat)
  | toolCallArgs (toolCallId delta args : String)
  | toolCallEnd (toolCallId toolName : String) (input : Json)
  | stepStarted (stepId : String)
  | stepFinished (stepId delta content : String)
  | runFinished (finishReason : String) (usage : Option (Nat × Nat × Nat))
  | runError (message code : String)

/-- Mutable per-run state of `StreamChunkConverter`.
`current_tool_index : Option Nat` models the Python `-1`-initialised index
(`none` = `-1`). `counter` drives the `generate_id` parameter. -/
structure ConvState where
  accumulated_content : String
  accumulated_thinking : String
  tool_calls_map : List (Nat × ToolEntry)
  current_tool_index : Option Nat
  run_finished : Bool
  run_id : String
  message_id : String
  step_id : Option String
  has_emitted_run_started : Bool
  has_emitted_text_message_start : Bool
  counter : Nat

/-- Converter state right after `__init__`: `run_id`/`message_id` are the
first two generated ids. -/
def ConvState.init (idGen : Nat → String) : ConvState :=
  { accumulated_content := ""
    accumulated_thinking := ""
    tool_calls_map := []
    current_tool_index := none
    run_finished := false
    run_id := idGen 0
    message_id := idGen 1
    step_id := none
    has_emitted_run_started := false
    has_emitted_text_message_start := false
    counter := 2 }

/-- Python dict read `m.get(k)`. -/
def dictGet {α : Type} (m : List (Nat × α)) (k : Nat) : Option α :=
  (m.find? (fun p => p.1 = k)).map Prod.snd

/-- Python dict write `m[k] = v`: update in place if the key exists,
otherwise append (insertion order preserved). -/
def dictSet {α : Type} (m : List (Nat × α)) (k : Nat) (v : α) :
    List (Nat × α) :=
  if (dictGet m k).isSome then
    m.map (fun p => if p.1 = k then (k, v) else p)
  else m ++ [(k, v)]

/-- `_maybe_emit_run_started` — converter.py lines 68-78. -/
def maybeEmitRunStarted (s : ConvState) : ConvState × List AGEvent :=
  if s.has_emitted_run_started then (s, [])
  else ({ s with has_emitted_run_started := true }, [AGEvent.runStarted s.run_id])

/-- `_maybe_emit_text_message_start` — converter.py lines 80-91. -/
def maybeEmitTextMessageStart (s : ConvState) : ConvState × List AGEvent :=
  if s.has_emitted_text_message_start then (s, [])
  else ({ s with has_emitted_text_message_start := true },
        [AGEvent.textMessageStart s.message_id])

/-! ### Anthropic provider events -/

/-- `event.content_block` payloads the converter inspects. -/
inductive ContentBlock where
  | tool_use (id : String) (name : String)
  | thinking
  | otherBlock
deriving DecidableEq

/-- `event.delta` payloads of `content_block_delta`. -/
inductive AnthDelta where
  | text_delta (text : String)
  | thinking_delta (thinking : String)
  | input_json_delta (partial_json : String)
  | otherDelta
deriving DecidableEq

/-- Anthropic streaming events (fields the converter reads; `message_delta`
carries `delta.stop_reason` and `usage.{input_tokens,output_tokens}`). -/
inductive AnthEvent where
  | content_block_start (content_block : Option ContentBlock)
  | content_block_delta (delta : Option AnthDelta)
  | content_block_stop
  | message_delta (stop_reason : Option String) (usage : Option (Nat × Nat))
  | message_stop
  | otherEvent
deriving DecidableEq

/-- Truthiness of an optional string (`if x:` in Python). -/
def otruthy (o : Option String) : Bool :=
  match o with
  | some s => s ≠ ""
  | none => false

/-- The `content_block_stop` tool-call flush — converter.py lines 197-228:
force TOOL_CALL_START if never started, then emit TOOL_CALL_END with the
parsed accumulated input. -/
def anthBlockStopTool (parse : String → Option Json) (s : ConvState)
    (chunks : List AGEvent) : ConvState × List AGEvent :=
  match s.current_tool_index with
  | none => (s, chunks)
  | some idx =>
    match dictGet s.tool_calls_map idx with
    | none => (s, chunks)
    | some tc =>
      if tc.started then
        ({ s with tool_calls_map := dictSet s.tool_calls_map idx tc },
         chunks ++ [AGEvent.toolCallEnd tc.id tc.name (parseOrEmpty parse tc.input)])
      else
        let tc1 := { tc with started := true }
        ({ s with tool_calls_map := dictSet s.tool_calls_map idx tc1 },
         chunks ++ [AGEvent.toolCallStart tc.id tc.name idx,
                    AGEvent.toolCallEnd tc1.id tc1.name (parseOrEmpty parse tc1.input)])

/-- `convert_anthropic_event` — converter.py lines 93-296 (the lazy
TEXT_MESSAGE_START and deferred TOOL_CALL_START emissions are written as
explicit branches). -/
def convert_anthropic_event (parse : String → Option Json) (idGen : Nat → String)
    (s : ConvState) (event : AnthEvent) : ConvState × List AGEvent :=
  let (s, chunks) := maybeEmitRunStarted s
  match event with
  | .content_block_start cb =>
    match cb with
    | some (.tool_use tid tname) =>
      let idx := match s.current_tool_index with | none => 0 | some k => k + 1
      ({ s with current_tool_index := some idx
                tool_calls_map :=
                  dictSet s.tool_calls_map idx ⟨tid, tname, "", false⟩ }, chunks)
    | some .thinking =>
      let sid := idGen s.counter
      ({ s with accumulated_thinking := ""
                step_id := some sid
                counter := s.counter + 1 },
       chunks ++ [AGEvent.stepStarted sid])
    | some .otherBlock => (s, chunks)
    | none => (s, chunks)
  | .content_block_delta d =>
    match d with
    | some (.text_delta t) =>
      if s.has_emitted_text_message_start then
        let s := { s with accumulated_content := s.accumulated_content ++ t }
        (s, chunks ++ [AGEvent.textMessageContent s.message_id t s.accumulated_content])
      else
        let s := { s with has_emitted_text_message_start := true
                          accumulated_content := s.accumulated_content ++ t }
        (s, chunks ++ [AGEvent.textMessageStart s.message_id,
                       AGEvent.textMessageContent s.message_id t s.accumulated_content])
    | some (.thinking_delta t) =>
      let s := { s with accumulated_thinking := s.accumulated_thinking ++ t }
      match s.step_id with
      | some sid =>
        if sid = "" then
          ({ s with counter := s.counter + 1 },
           chunks ++ [AGEvent.stepFinished (idGen s.counter) t s.accumulated_thinking])
        else (s, chunks ++ [AGEvent.stepFinished sid t s.accumulated_thinking])
      | none =>
        ({ s with counter := s.counter + 1 },
         chunks ++ [AGEvent.stepFinished (idGen s.counter) t s.accumulated_thinking])
    | some (.input_json_delta pj) =>
      match s.current_tool_index with
      | none => (s, chunks)
      | some idx =>
        match dictGet s.tool_calls_map idx with
        | none => (s, chunks)
        | some tc =>
          if tc.started then
            let tc2 := { tc with input := tc.input ++ pj }
            ({ s with tool_calls_map := dictSet s.tool_calls_map idx tc2 },
             chunks ++ [AGEvent.toolCallArgs tc2.id pj tc2.input])
          else
            let tc2 := { tc with started := true, input := tc.input ++ pj }
            ({ s with tool_calls_map := dictSet s.tool_calls_map idx tc2 },
             chunks ++ [AGEvent.toolCallStart tc.id tc.name idx,
                        AGEvent.toolCallArgs tc2.id pj tc2.input])
    | some .otherDelta => (s, chunks)
    | none => (s, chunks)
  | .content_block_stop =>
    let p := anthBlockStopTool parse s chunks
    if p.1.has_emitted_text_message_start ∧ p.1.accumulated_content ≠ "" then
      (p.1, p.2 ++ [AGEvent.textMessageEnd p.1.message_id])
    else p
  | .message_delta stop_reason usage =>
    if otruthy stop_reason then
      let sr := stop_reason.getD ""
      let usage_dict := usage.map (fun u => (u.1, u.2, u.1 + u.2))
      if sr = "max_tokens" then
        ({ s with run_finished := true },
         chunks ++ [AGEvent.runError
           "The response was cut off because the maximum token limit was reached."
           "max_tokens"])
      else
        let finish_reason :=
          if sr = "tool_use" then "tool_calls"
          else if sr = "end_turn" then "stop"
          else sr
        ({ s with run_finished := true },
         chunks ++ [AGEvent.runFinished finish_reason usage_dict])
    else (s, chunks)
  | .message_stop =>
    if s.run_finished then (s, chunks)
    else ({ s with run_finished := true },
          chunks ++ [AGEvent.runFinished "stop" none])
  | .otherEvent => (s, chunks)

/-! ### OpenAI provider events -/

/-- One element of `delta.tool_calls` in an OpenAI chunk. -/
structure OaiToolCallDelta where
  index : Option Nat
  id : Option String
  name : Option String
  arguments : Option String
deriving DecidableEq

/-- OpenAI streaming chunk, collapsed to the fields the converter reads
from `chunk.choices[0]` (or the chunk itself as fallback):
`delta.content`, `delta.tool_calls`, `finish_reason`, and `usage`. -/
structure OaiEvent where
  content : Option String
  tool_calls : Option (List OaiToolCallDelta)
  finish_reason : Option String
  usage : Option (Nat × Nat × Nat)
deriving DecidableEq

/-- Loop body over `delta.tool_calls` — converter.py lines 339-385.
The synthetic fallback id `f"call_{self.timestamp}_{tool_index}"` is
modelled as `"call_" ++ toString tool_index` (the timestamp is a per-run
constant); the deferred TOOL_CALL_START emission is written as explicit
branches. -/
def oaiToolCallStep (s : ConvState) (chunks : List AGEvent)
    (tcd : OaiToolCallDelta) : ConvState × List AGEvent :=
  let tool_index := tcd.index.getD s.tool_calls_map.length
  let tool_name := tcd.name.getD ""
  let arguments := tcd.arguments.getD ""
  let m :=
    if (dictGet s.tool_calls_map tool_index).isSome then s.tool_calls_map
    else dictSet s.tool_calls_map tool_index
      ⟨(if otruthy tcd.id then tcd.id.getD "" else "call_" ++ toString tool_index),
       tool_name, "", false⟩
  match dictGet m tool_index with
  | none => (s, chunks)
  | some tracked0 =>
    let tracked1 :=
      if otruthy tcd.id then { tracked0 with id := tcd.id.getD "" } else tracked0
    let tracked2 :=
      if tool_name ≠ "" then { tracked1 with name := tool_name } else tracked1
    if ¬tracked2.started ∧ (otruthy tcd.id ∨ tool_name ≠ "") then
      let tracked3 := { tracked2 with started := true }
      if arguments ≠ "" then
        let tracked4 := { tracked3 with input := tracked3.input ++ arguments }
        ({ s with tool_calls_map := dictSet m tool_index tracked4 },
         chunks ++ [AGEvent.toolCallStart tracked3.id tracked3.name tool_index,
                    AGEvent.toolCallArgs tracked4.id arguments tracked4.input])
      else
        ({ s with tool_calls_map := dictSet m tool_index tracked3 },
         chunks ++ [AGEvent.toolCallStart tracked3.id tracked3.name tool_index])
    else
      if arguments ≠ "" then
        let tracked4 := { tracked2 with input := tracked2.input ++ arguments }
        ({ s with tool_calls_map := dictSet m tool_index tracked4 },
         chunks ++ [AGEvent.toolCallArgs tracked4.id arguments tracked4.input])
      else
        ({ s with tool_calls_map := dictSet m tool_index tracked2 }, chunks)

/-- The TOOL_CALL_END flush over `tool_calls_map` at an OpenAI finish —
converter.py lines 390-407. -/
def openaiToolEnds (parse : String → Option Json) (m : List (Nat × ToolEntry)) :
    List AGEvent :=
  m.foldl
    (fun acc p =>
      if p.2.started then
        acc ++ [AGEvent.toolCallEnd p.2.id p.2.name (parseOrEmpty parse p.2.input)]
      else acc) []

/-- Text-content stage of `convert_openai_event` — converter.py
lines 318-334 (lazy TEXT_MESSAGE_START written as explicit branches). -/
def oaiContentStage (p : ConvState × List AGEvent) (event : OaiEvent) :
    ConvState × List AGEvent :=
  let s := p.1
  let chunks := p.2
  if otruthy event.content then
    let c := event.content.getD ""
    if s.has_emitted_text_message_start then
      let s := { s with accumulated_content := s.accumulated_content ++ c }
      (s, chunks ++ [AGEvent.textMessageContent s.message_id c s.accumulated_content])
    else
      let s := { s with has_emitted_text_message_start := true
                        accumulated_content := s.accumulated_content ++ c }
      (s, chunks ++ [AGEvent.textMessageStart s.message_id,
                     AGEvent.textMessageContent s.message_id c s.accumulated_content])
  else (s, chunks)

/-- Tool-calls stage of `convert_openai_event` — converter.py lines 337-385. -/
def oaiToolsStage (p : ConvState × List AGEvent) (event : OaiEvent) :
    ConvState × List AGEvent :=
  match event.tool_calls with
  | some l =>
    if l ≠ [] then l.foldl (fun q tcd => oaiToolCallStep q.1 q.2 tcd) p else p
  | none => p

/-- Finish stage of `convert_openai_event` — converter.py lines 387-443.
The OpenAI finish-reason mapping table is the identity on its four keys and
passes unmapped values through, hence it is the identity. -/
def oaiFinishStage (parse : String → Option Json) (p : ConvState × List AGEvent)
    (event : OaiEvent) : ConvState × List AGEvent :=
  let s := p.1
  let chunks := p.2
  if otruthy event.finish_reason then
    let fr := event.finish_reason.getD ""
    let chunks := chunks ++ openaiToolEnds parse s.tool_calls_map
    let chunks :=
      if s.has_emitted_text_message_start then
        chunks ++ [AGEvent.textMessageEnd s.message_id]
      else chunks
    ({ s with run_finished := true },
     chunks ++ [AGEvent.runFinished fr event.usage])
  else (s, chunks)

/-- `convert_openai_event` — converter.py lines 298-445, as the pipeline of
its three stages after the RUN_STARTED check. -/
def convert_openai_event (parse : String → Option Json)
    (s : ConvState) (event : OaiEvent) : ConvState × List AGEvent :=
  oaiFinishStage parse (oaiToolsStage (oaiContentStage (maybeEmitRunStarted s) event) event) event

/-- Python exception value, as read by `convert_error`:
`str(error)`, its optional `code` attribute, and `type(error).__name__`. -/
structure PyError where
  message : String
  code : Option String
  className : String
deriving DecidableEq

/-- `convert_error` — converter.py lines 470-489
(`getattr(error, "code", None) or type(error).__name__`). -/
def convert_error (s : ConvState) (error : PyError) : ConvState × List AGEvent :=
  let (s, chunks) := maybeEmitRunStarted s
  (s, chunks ++ [AGEvent.runError error.message
    (if otruthy error.code then error.code.getD "" else error.className)])

/-! ### Converter runs -/

/-- One public call on a `StreamChunkConverter` instance. -/
inductive ConvCall where
  | anthropic (event : AnthEvent)
  | openai (event : OaiEvent)
  | err (error : PyError)

/-- Dispatch one call to the corresponding converter method. -/
def convStep (parse : String → Option Json) (idGen : Nat → String)
    (s : ConvState) (c : ConvCall) : ConvState × List AGEvent :=
  match c with
  | .anthropic e => convert_anthropic_event parse idGen s e
  | .openai e => convert_openai_event parse s e
  | .err e => convert_error s e

/-- Run a sequence of calls from a state, concatenating all emitted events. -/
def convRun (parse : String → Option Json) (idGen : Nat → String)
    (s : ConvState) : List ConvCall → ConvState × List AGEvent
  | [] => (s, [])
  | c :: rest =>
    let (s1, out1) := convStep parse idGen s c
    let (s2, out2) := convRun parse idGen s1 rest
    (s2, out1 ++ out2)

/-! ## Tool-call accumulation and execution (tool_manager.py) -/

/-- Python `str.strip()`: drop whitespace from both ends. -/
def pyStrip (s : String) : String :=
  String.mk (((s.data.dropWhile Char.isWhitespace).reverse.dropWhile Char.isWhitespace).reverse)

/-- `ToolCallFunction` TypedDict. -/
structure ToolCallFunction where
  name : String
  arguments : String
deriving DecidableEq

/-- `ToolCall` TypedDict (the constant `type: "function"` field is omitted). -/
structure ToolCall where
  id : String
  function : ToolCallFunction
deriving DecidableEq

/-- `ToolCallManager._tool_calls_map : Dict[int, ToolCall]`. -/
def TCMap : Type := List (Nat × ToolCall)

/-- `ToolCallManager.add_tool_call_start_event` — tool_manager.py lines 57-72.
`index = event.get("index", len(self._tool_calls_map))`. -/
def add_tool_call_start_event (m : TCMap) (toolCallId toolName : String)
    (index : Option Nat) : TCMap :=
  let index := index.getD m.length
  dictSet m index ⟨toolCallId, ⟨toolName, ""⟩⟩

/-- `ToolCallManager.add_tool_call_args_event` — tool_manager.py lines 74-85:
the first value (in insertion order) whose id matches gets the delta
appended to its arguments, then `break`. -/
def add_tool_call_args_event : TCMap → String → Option String → TCMap
  | [], _, _ => []
  | (k, tc) :: rest, toolCallId, delta =>
    if tc.id = toolCallId then
      (k, { tc with function :=
              { tc.function with
                arguments := tc.function.arguments ++ delta.getD "" } }) :: rest
    else (k, tc) :: add_tool_call_args_event rest toolCallId delta

/-- `ToolCallManager.complete_tool_call` — tool_manager.py lines 87-99:
first id match gets `arguments := json.dumps(event["input"])` when the
event's input is present, then `break`. -/
def complete_tool_call (dumps : Json → String) :
    TCMap → String → Option Json → TCMap
  | [], _, _ => []
  | (k, tc) :: rest, toolCallId, input =>
    if tc.id = toolCallId then
      (match input with
       | some j =>
         (k, { tc with function := { tc.function with arguments := dumps j } }) :: rest
       | none => (k, tc) :: rest)
    else (k, tc) :: complete_tool_call dumps rest toolCallId input

/-- `ToolCallManager.get_tool_calls` — tool_manager.py lines 105-113. -/
def get_tool_calls (m : TCMap) : List ToolCall :=
  (m.map Prod.snd).filter
    (fun tc => tc.id ≠ "" && tc.function.name ≠ "" && pyStrip tc.function.name ≠ "")

/-- `ToolCallManager.has_tool_calls` — tool_manager.py lines 101-103. -/
def has_tool_calls (m : TCMap) : Bool :=
  decide (0 < (get_tool_calls m).length)

/-! ### execute_tool_calls -/

/-- Registry `Tool` (fields `execute` and `needs_approval`; descriptions and
schemas are never read by the execution path).  `execute` returning
`Except.error e` models the Python callable raising an exception with
message `e`. -/
structure Tool where
  name : String
  needs_approval : Bool
  execute : Option (Json → Except String Json)

/-- `ToolResult` — tool_manager.py lines 125-138 (`state = None` on success). -/
structure ToolResult where
  tool_call_id : String
  tool_name : String
  result : Json
  state : Option String

/-- `ApprovalRequest` — tool_manager.py lines 141-154. -/
structure ApprovalRequest where
  tool_call_id : String
  tool_name : String
  input : Json
  approval_id : String

/-- `ClientToolRequest` — tool_manager.py lines 157-168. -/
structure ClientToolRequest where
  tool_call_id : String
  tool_name : String
  input : Json

/-- `ExecuteToolCallsResult` — tool_manager.py lines 171-182. -/
structure ExecuteToolCallsResult where
  results : List ToolResult
  needs_approval : List ApprovalRequest
  needs_client_execution : List ClientToolRequest

/-- `tool_map = {tool.name: tool for tool in tools}` then `.get(name)`:
with duplicate names the later entry wins. -/
def toolMapGet (tools : List Tool) (n : String) : Option Tool :=
  tools.reverse.find? (fun t => t.name = n)

/-- `args_str = tool_call["function"]["arguments"].strip() or "{}"` —
tool_manager.py line 237. -/
def defaultedArgs (tool_call : ToolCall) : String :=
  let s := pyStrip tool_call.function.arguments
  if s = "" then "{}" else s

/-- `_execute_tool` — tool_manager.py lines 376-403 (schema validation is a
TODO in the source and absent here too). -/
def execute_tool (tool : Tool) (input_data : Json) : Except String Json :=
  match tool.execute with
  | none => Except.error ("Tool " ++ tool.name ++ " does not have an execute function")
  | some f => f input_data

/-- What one loop iteration of `execute_tool_calls` appends: exactly one
entry in exactly one of the three partitions. -/
inductive CallOutcome where
  | res (r : ToolResult)
  | approval (a : ApprovalRequest)
  | client (c : ClientToolRequest)

/-- The payload `{"error": msg}`. -/
def errorPayload (msg : String) : Json := Json.obj [("error", Json.str msg)]

/-- Loop body of `execute_tool_calls` — tool_manager.py lines 220-371.
Besides the outcome it returns the list of tool-call ids on which the
tool's `execute` capability was invoked (possibly raising). -/
def process_tool_call (parse : String → Option Json) (tools : List Tool)
    (approvals : String → Option Bool) (client_results : String → Option Json)
    (tool_call : ToolCall) : Except String (CallOutcome × List String) :=
  let tool_name := tool_call.function.name
  match toolMapGet tools tool_name with
  | none =>
    Except.ok (CallOutcome.res
      ⟨tool_call.id, tool_name, errorPayload ("Unknown tool: " ++ tool_name),
       some "output-error"⟩, [])
  | some tool =>
    match parse (defaultedArgs tool_call) with
    | none =>
      Except.error ("Failed to parse tool arguments as JSON: " ++ defaultedArgs tool_call)
    | some input_data =>
      if tool.execute.isNone then
        -- CASE 1: client-side tool
        if tool.needs_approval then
          let approval_id := "approval_" ++ tool_call.id
          match approvals approval_id with
          | some approved =>
            if approved then
              match client_results tool_call.id with
              | some r => Except.ok (CallOutcome.res ⟨tool_call.id, tool_name, r, none⟩, [])
              | none =>
                Except.ok (CallOutcome.client ⟨tool_call.id, tool_name, input_data⟩, [])
            else
              Except.ok (CallOutcome.res
                ⟨tool_call.id, tool_name,
                 errorPayload "User declined tool execution", some "output-error"⟩, [])
          | none =>
            Except.ok (CallOutcome.approval
              ⟨tool_call.id, tool_name, input_data, approval_id⟩, [])
        else
          match client_results tool_call.id with
          | some r => Except.ok (CallOutcome.res ⟨tool_call.id, tool_name, r, none⟩, [])
          | none =>
            Except.ok (CallOutcome.client ⟨tool_call.id, tool_name, input_data⟩, [])
      else if tool.needs_approval then
        -- CASE 2: server tool with approval required
        let approval_id := "approval_" ++ tool_call.id
        match approvals approval_id with
        | some approved =>
          if approved then
            match execute_tool tool input_data with
            | Except.ok r =>
              Except.ok (CallOutcome.res ⟨tool_call.id, tool_name, r, none⟩, [tool_call.id])
            | Except.error e =>
              Except.ok (CallOutcome.res
                ⟨tool_call.id, tool_name, errorPayload e, some "output-error"⟩,
               [tool_call.id])
          else
            Except.ok (CallOutcome.res
              ⟨tool_call.id, tool_name,
               errorPayload "User declined tool execution", some "output-error"⟩, [])
        | none =>
          Except.ok (CallOutcome.approval
            ⟨tool_call.id, tool_name, input_data, approval_id⟩, [])
      else
        -- CASE 3: normal server tool, execute immediately
        match execute_tool tool input_data with
        | Except.ok r =>
          Except.ok (CallOutcome.res ⟨tool_call.id, tool_name, r, none⟩, [tool_call.id])
        | Except.error e =>
          Except.ok (CallOutcome.res
            ⟨tool_call.id, tool_name, errorPayload e, some "output-error"⟩,
           [tool_call.id])

/-- Process the whole batch in order, stopping at the first raised
exception (Python `for` loop with an uncaught `raise`). -/
def process_calls (parse : String → Option Json) (tools : List Tool)
    (approvals : String → Option Bool) (client_results : String → Option Json) :
    List ToolCall → Except String (List CallOutcome × List String)
  | [] => Except.ok ([], [])
  | tc :: rest => do
    let (o, tr) ← process_tool_call parse tools approvals client_results tc
    let (os, trs) ← process_calls parse tools approvals client_results rest
    Except.ok (o :: os, tr ++ trs)

/-- Rebuild the three append-only partition lists from the outcome list,
preserving loop order. -/
def partitionOutcomes : List CallOutcome → ExecuteToolCallsResult
  | [] => ⟨[], [], []⟩
  | o :: rest =>
    let r := partitionOutcomes rest
    match o with
    | .res x => ⟨x :: r.results, r.needs_approval, r.needs_client_execution⟩
    | .approval x => ⟨r.results, x :: r.needs_approval, r.needs_client_execution⟩
    | .client x => ⟨r.results, r.needs_approval, x :: r.needs_client_execution⟩

/-- `execute_tool_calls` — tool_manager.py lines 185-373, instrumented with
the list of tool-call ids whose `execute` capability was invoked. -/
def execute_tool_calls (parse : String → Option Json) (tool_calls : List ToolCall)
    (tools : List Tool) (approvals : String → Option Bool)
    (client_results : String → Option Json) :
    Except String (ExecuteToolCallsResult × List String) :=
  (process_calls parse tools approvals client_results tool_calls).map
    (fun p => (partitionOutcomes p.1, p.2))

/-! ## Chat orchestration (chat.py) -/

/-- `ModelMessage` TypedDict (`total=False`: every field optional except
that `role` is always set by this code). -/
structure ModelMessage where
  role : String
  content : Option String
  toolCalls : Option (List ToolCall)
  toolCallId : Option String

/-- Stream chunk as read by `ChatEngine._handle_stream_chunk` via
`chunk.get(...)`: only the fields the engine accesses are modelled,
optional where the engine supplies a `.get` default. -/
inductive Chunk where
  | textMessageContent (delta : Option String) (content : Option String)
  | toolCallStart (toolCallId toolName : String) (index : Option Nat)
  | toolCallArgs (toolCallId : String) (delta : Option String)
  | toolCallEnd (toolCallId : String) (input : Option Json)
  | runFinished (finishReason : Option String)
  | runError
  | custom
  | otherChunk

/-- `chunk.get("finishReason")`. -/
def chunkFinishReason : Chunk → Option String
  | .runFinished fr => fr
  | _ => none

/-- `CyclePhase` enum — chat.py lines 36-40. -/
inductive CyclePhase where
  | processChat
  | executeToolCalls
deriving DecidableEq

/-- `ToolPhaseResult` enum — chat.py lines 43-48. -/
inductive ToolPhaseResult where
  | cont
  | stop
  | wait
deriving DecidableEq

/-- Mutable state of `ChatEngine` (generated ids dropped; `chat_stream_calls`
counts calls to `adapter.chat_stream`, `errored` records an exception
propagating out of `execute_tool_calls`). -/
structure EngineState where
  messages : List ModelMessage
  iteration_count : Nat
  last_finish_reason : Option String
  accumulated_content : String
  finished_event : Option Chunk
  should_emit_stream_end : Bool
  early_termination : Bool
  tool_phase : ToolPhaseResult
  cycle_phase : CyclePhase
  tool_calls_map : TCMap
  chat_stream_calls : Nat
  errored : Bool

/-- `_prepend_system_prompts` — chat.py lines 51-76. -/
def prepend_system_prompts (messages : List ModelMessage)
    (system_prompts : Option (List String)) (default_prompts : Option (List String)) :
    List ModelMessage :=
  let prompts :=
    match system_prompts with
    | some l => if l ≠ [] then l else default_prompts.getD []
    | none => default_prompts.getD []
  if prompts = [] then messages
  else prompts.map (fun c => ⟨"system", some c, none, none⟩) ++ messages

/-- Engine state right after `ChatEngine.__init__`. -/
def EngineState.init (messages : List ModelMessage) : EngineState :=
  { messages := messages
    iteration_count := 0
    last_finish_reason := none
    accumulated_content := ""
    finished_event := none
    should_emit_stream_end := true
    early_termination := false
    tool_phase := ToolPhaseResult.cont
    cycle_phase := CyclePhase.processChat
    tool_calls_map := []
    chat_stream_calls := 0
    errored := false }

/-- `_handle_run_finished_event` — chat.py lines 232-244. -/
def handle_run_finished_event (s : EngineState) (chunk : Chunk) : EngineState :=
  if (match s.finished_event with
      | some ev => decide (chunkFinishReason ev = some "tool_calls")
      | none => false) && decide (chunkFinishReason chunk = some "stop") then
    { s with last_finish_reason := chunkFinishReason chunk }
  else
    { s with finished_event := some chunk
             last_finish_reason := chunkFinishReason chunk }

/-- `_handle_stream_chunk` — chat.py lines 208-230. -/
def handle_stream_chunk (s : EngineState) (chunk : Chunk) : EngineState :=
  match chunk with
  | .textMessageContent delta content =>
    if otruthy content then { s with accumulated_content := content.getD "" }
    else { s with accumulated_content := s.accumulated_content ++ delta.getD "" }
  | .toolCallStart toolCallId toolName index =>
    { s with tool_calls_map :=
        add_tool_call_start_event s.tool_calls_map toolCallId toolName index }
  | .toolCallArgs toolCallId delta =>
    { s with tool_calls_map :=
        add_tool_call_args_event s.tool_calls_map toolCallId delta }
  | .runFinished _ => handle_run_finished_event s chunk
  | .runError => { s with early_termination := true, should_emit_stream_end := false }
  | _ => s

/-- The chunk-consumption loop of `_stream_model_response` — chat.py
lines 201-206: handle each chunk, break once `early_termination` is set. -/
def consumeChunks : EngineState → List Chunk → EngineState
  | s, [] => s
  | s, c :: rest =>
    let s := handle_stream_chunk s c
    if s.early_termination then s else consumeChunks s rest

/-- `_stream_model_response` — chat.py lines 185-206, with the adapter's
`chat_stream` taken as a deterministic oracle from the current messages to
the list of chunks it yields; the call counter is the instrumentation. -/
def stream_model_response (adapterStream : List ModelMessage → List Chunk)
    (s : EngineState) : EngineState :=
  consumeChunks { s with chat_stream_calls := s.chat_stream_calls + 1 }
    (adapterStream s.messages)

/-- `_should_execute_tool_phase` — chat.py lines 344-351. -/
def should_execute_tool_phase (tools : List Tool) (s : EngineState) : Bool :=
  (match s.finished_event with
   | some ev => decide (chunkFinishReason ev = some "tool_calls")
   | none => false)
  && decide (0 < tools.length)
  && has_tool_calls s.tool_calls_map

/-- `_set_tool_phase` — chat.py lines 488-492. -/
def set_tool_phase (s : EngineState) (phase : ToolPhaseResult) : EngineState :=
  let s := { s with tool_phase := phase }
  if phase = ToolPhaseResult.wait then { s with should_emit_stream_end := false } else s

/-- `_add_assistant_tool_call_message` — chat.py lines 353-360
(`"content": self.accumulated_content or None`). -/
def add_assistant_tool_call_message (s : EngineState) (tool_calls : List ToolCall) :
    EngineState :=
  { s with messages := s.messages ++
      [⟨"assistant",
        (if s.accumulated_content ≠ "" then some s.accumulated_content else none),
        some tool_calls, none⟩] }

/-- The message-appending effect of `_emit_tool_results` — chat.py
lines 421-446: one `role="tool"` message per result, in order, with
`content = json.dumps(result.result)`. -/
def append_tool_result_messages (dumps : Json → String) (s : EngineState)
    (results : List ToolResult) : EngineState :=
  { s with messages := s.messages ++
      results.map (fun r => ⟨"tool", some (dumps r.result), none, some r.tool_call_id⟩) }

/-- `_process_tool_calls` — chat.py lines 290-342 (yields dropped, state
effects kept; `_collect_client_state` is the stub returning empty maps). -/
def engine_process_tool_calls (parse : String → Option Json) (dumps : Json → String)
    (tools : List Tool) (s : EngineState) : EngineState :=
  if ¬ (should_execute_tool_phase tools s = true) then set_tool_phase s ToolPhaseResult.stop
  else
    let tool_calls := get_tool_calls s.tool_calls_map
    match s.finished_event with
    | none => set_tool_phase s ToolPhaseResult.stop
    | some _ =>
      if tool_calls = [] then set_tool_phase s ToolPhaseResult.stop
      else
        let s := add_assistant_tool_call_message s tool_calls
        match execute_tool_calls parse tool_calls tools (fun _ => none) (fun _ => none) with
        | Except.error _ => { s with errored := true }
        | Except.ok (er, _) =>
          if !er.needs_approval.isEmpty || !er.needs_client_execution.isEmpty then
            set_tool_phase s ToolPhaseResult.wait
          else
            let s := append_tool_result_messages dumps s er.results
            set_tool_phase { s with tool_calls_map := [] } ToolPhaseResult.cont

/-- `_get_pending_tool_calls_from_messages` — chat.py lines 448-463. -/
def get_pending_tool_calls (messages : List ModelMessage) : List ToolCall :=
  let completed : List String := messages.filterMap
    (fun m => if m.role = "tool" && otruthy m.toolCallId
              then some (m.toolCallId.getD "") else none)
  messages.foldl
    (fun acc m =>
      if m.role = "assistant" && !(m.toolCalls.getD []).isEmpty then
        acc ++ (m.toolCalls.getD []).filter (fun tc => !(completed.contains tc.id))
      else acc) []

/-- `_check_for_pending_tool_calls` — chat.py lines 246-288 (the synthetic
RUN_FINISHED event only decorates emitted chunks, which are dropped; it is
never stored in the engine state). -/
def check_for_pending_tool_calls (parse : String → Option Json) (dumps : Json → String)
    (tools : List Tool) (s : EngineState) : EngineState :=
  let pending := get_pending_tool_calls s.messages
  if pending = [] then s
  else
    match execute_tool_calls parse pending tools (fun _ => none) (fun _ => none) with
    | Except.error _ => { s with errored := true }
    | Except.ok (er, _) =>
      if !er.needs_approval.isEmpty || !er.needs_client_execution.isEmpty then
        { s with should_emit_stream_end := false, tool_phase := ToolPhaseResult.wait }
      else append_tool_result_messages dumps s er.results

/-- `AgentLoopState` dict handed to the loop strategy — chat.py lines 480-486. -/
structure AgentLoopState where
  iterationCount : Nat
  messages : List ModelMessage
  finishReason : Option String

/-- `_should_continue` — chat.py lines 475-486. -/
def should_continue (strategy : AgentLoopState → Bool) (s : EngineState) : Bool :=
  if s.cycle_phase = CyclePhase.executeToolCalls then true
  else strategy ⟨s.iteration_count, s.messages, s.last_finish_reason⟩
       && decide (s.tool_phase = ToolPhaseResult.cont)

/-- `_begin_iteration` — chat.py lines 179-183 (message id dropped). -/
def begin_iteration (s : EngineState) : EngineState :=
  { s with accumulated_content := "", finished_event := none }

/-- `_begin_cycle` — chat.py lines 165-168. -/
def begin_cycle (s : EngineState) : EngineState :=
  if s.cycle_phase = CyclePhase.processChat then begin_iteration s else s

/-- `_end_cycle` — chat.py lines 170-177. -/
def end_cycle (s : EngineState) : EngineState :=
  if s.cycle_phase = CyclePhase.processChat then
    { s with cycle_phase := CyclePhase.executeToolCalls }
  else
    { s with cycle_phase := CyclePhase.processChat
             iteration_count := s.iteration_count + 1 }

/-- The `while self._should_continue()` loop of `ChatEngine.chat` —
chat.py lines 147-160, fuelled (the Python loop may run unboundedly for a
never-false strategy).  An exception from `execute_tool_calls` ends the
generator at once (`errored`), skipping `_end_cycle`. -/
def chat_loop (strategy : AgentLoopState → Bool)
    (adapterStream : List ModelMessage → List Chunk)
    (parse : String → Option Json) (dumps : Json → String) (tools : List Tool) :
    Nat → EngineState → EngineState
  | 0, s => s
  | fuel + 1, s =>
    if should_continue strategy s then
      if s.early_termination then s
      else
        let s1 := begin_cycle s
        let s2 :=
          if s1.cycle_phase = CyclePhase.processChat then
            stream_model_response adapterStream s1
          else engine_process_tool_calls parse dumps tools s1
        if s2.errored then s2
        else chat_loop strategy adapterStream parse dumps tools fuel (end_cycle s2)
    else s

/-- `ChatEngine.chat` — chat.py lines 131-163: pending-tool-call check,
early return on WAIT (or a propagated exception), then the main loop. -/
def chat_run (strategy : AgentLoopState → Bool)
    (adapterStream : List ModelMessage → List Chunk)
    (parse : String → Option Json) (dumps : Json → String) (tools : List Tool)
    (fuel : Nat) (s0 : EngineState) : EngineState :=
  let s := check_for_pending_tool_calls parse dumps tools s0
  if s.errored then s
  else if s.tool_phase = ToolPhaseResult.wait then s
  else chat_loop strategy adapterStream parse dumps tools fuel s

/-! ## Theorems -/

/-- C1: handling RUN_FINISHED (`stop`) after a cached RUN_FINISHED
(`tool_calls`) in the same iteration keeps the cached finished event (its
`tool_calls` reason is not downgraded) and only updates the last-seen
finish reason; in every other case both the cached event and the last-seen
reason are taken from the new chunk. -/
theorem c1_run_finished_no_downgrade (s : EngineState) (fr : Option String) :
    ((∃ ev, s.finished_event = some ev ∧ chunkFinishReason ev = some "tool_calls") ∧
        fr = some "stop" →
      handle_run_finished_event s (Chunk.runFinished fr) =
        { s with last_finish_reason := some "stop" }) ∧
    (¬ ((∃ ev, s.finished_event = some ev ∧ chunkFinishReason ev = some "tool_calls") ∧
        fr = some "stop") →
      handle_run_finished_event s (Chunk.runFinished fr) =
        { s with finished_event := some (Chunk.runFinished fr),
                 last_finish_reason := fr }) := by
  constructor
  · rintro ⟨⟨ev, hev, hr⟩, hfr⟩
    subst hfr
    have hcr : chunkFinishReason (Chunk.runFinished (some "stop")) = some "stop" := rfl
    simp [handle_run_finished_event, hev, hr, hcr]
  · intro h
    unfold handle_run_finished_event
    have hcond : ¬ (((match s.finished_event with
        | some ev => decide (chunkFinishReason ev = some "tool_calls")
        | none => false) &&
        decide (chunkFinishReason (Chunk.runFinished fr) = some "stop")) = true) := by
      intro hg
      rw [Bool.and_eq_true] at hg
      obtain ⟨hl, hr⟩ := hg
      apply h
      constructor
      · cases hfe : s.finished_event with
        | none => rw [hfe] at hl; exact absurd hl (by simp)
        | some ev =>
          rw [hfe] at hl
          exact ⟨ev, rfl, of_decide_eq_true hl⟩
      · have hx : chunkFinishReason (Chunk.runFinished fr) = some "stop" :=
          of_decide_eq_true hr
        simpa [chunkFinishReason] using hx
    rw [if_neg hcond]
    rfl

/-- Witness for C1 at a concrete state: a cached `tool_calls` finished
event survives a later `stop`. -/
def c1state : EngineState :=
  { EngineState.init [] with
      finished_event := some (Chunk.runFinished (some "tool_calls")) }

theorem c1_run_finished_no_downgrade_witness :
    ((∃ ev, c1state.finished_event = some ev ∧ chunkFinishReason ev = some "tool_calls") ∧
      (some "stop" : Option String) = some "stop") ∧
    handle_run_finished_event c1state (Chunk.runFinished (some "stop")) =
      { c1state with last_finish_reason := some "stop" } :=
  ⟨⟨⟨Chunk.runFinished (some "tool_calls"), rfl, rfl⟩, rfl⟩,
   (c1_run_finished_no_downgrade c1state (some "stop")).1
     ⟨⟨Chunk.runFinished (some "tool_calls"), rfl, rfl⟩, rfl⟩⟩

/-- C9: `get_tool_calls` returns exactly the accumulated calls with a
non-empty id and a name non-empty after stripping whitespace (the rest are
silently omitted — the function is total and raises nothing), and
`has_tool_calls` holds iff at least one call passes the filter. -/
theorem c9_get_tool_calls_filter (m : TCMap) :
    get_tool_calls m =
      (m.map Prod.snd).filter
        (fun tc => decide (tc.id ≠ "" ∧ pyStrip tc.function.name ≠ "")) ∧
    (has_tool_calls m = true ↔
      ∃ tc ∈ m.map Prod.snd, tc.id ≠ "" ∧ pyStrip tc.function.name ≠ "") := by
  have hpt : ∀ tc : ToolCall,
      (tc.id ≠ "" && tc.function.name ≠ "" && pyStrip tc.function.name ≠ "") =
      decide (tc.id ≠ "" ∧ pyStrip tc.function.name ≠ "") := by
    intro tc
    by_cases h1 : tc.id = "" <;> by_cases h2 : tc.function.name = ""
    · simp [h1, h2]
    · simp [h1, h2]
    · have hps : pyStrip "" = "" := rfl
      simp [h1, h2, hps]
    · simp [h1, h2]
  have hget : get_tool_calls m =
      (m.map Prod.snd).filter
        (fun tc => decide (tc.id ≠ "" ∧ pyStrip tc.function.name ≠ "")) := by
    unfold get_tool_calls
    exact List.filter_congr (fun tc _ => hpt tc)
  refine ⟨hget, ?_⟩
  unfold has_tool_calls
  rw [hget]
  simp [List.length_pos, List.filter_eq_nil_iff]

/-! ### Per-call facts about `execute_tool_calls` -/

/-- The tool-call id an outcome is recorded under. -/
def outcomeId : CallOutcome → String
  | .res x => x.tool_call_id
  | .approval x => x.tool_call_id
  | .client x => x.tool_call_id

theorem process_tool_call_unknown (parse : String → Option Json) (tools : List Tool)
    (approvals : String → Option Bool) (client_results : String → Option Json)
    (tc : ToolCall) (h : toolMapGet tools tc.function.name = none) :
    process_tool_call parse tools approvals client_results tc =
      Except.ok (CallOutcome.res
        ⟨tc.id, tc.function.name, errorPayload ("Unknown tool: " ++ tc.function.name),
         some "output-error"⟩, []) := by
  unfold process_tool_call
  dsimp only
  rw [h]

theorem process_tool_call_badjson (parse : String → Option Json) (tools : List Tool)
    (approvals : String → Option Bool) (client_results : String → Option Json)
    (tc : ToolCall) (tool : Tool) (ht : toolMapGet tools tc.function.name = some tool)
    (hp : parse (defaultedArgs tc) = none) :
    process_tool_call parse tools approvals client_results tc =
      Except.error ("Failed to parse tool arguments as JSON: " ++ defaultedArgs tc) := by
  unfold process_tool_call
  dsimp only
  rw [ht, hp]

theorem process_tool_call_ok_of (parse : String → Option Json) (tools : List Tool)
    (approvals : String → Option Bool) (client_results : String → Option Json)
    (tc : ToolCall)
    (h : (toolMapGet tools tc.function.name).isSome = true →
         (parse (defaultedArgs tc)).isSome = true) :
    ∃ o tr, process_tool_call parse tools approvals client_results tc =
      Except.ok (o, tr) := by
  unfold process_tool_call
  dsimp only
  cases ht : toolMapGet tools tc.function.name with
  | none => exact ⟨_, _, rfl⟩
  | some tool =>
    have hps : (parse (defaultedArgs tc)).isSome = true := h (by rw [ht]; rfl)
    rcases Option.isSome_iff_exists.mp hps with ⟨j, hj⟩
    rw [hj]
    dsimp only
    repeat' split
    all_goals exact ⟨_, _, rfl⟩

theorem process_tool_call_ok_id (parse : String → Option Json) (tools : List Tool)
    (approvals : String → Option Bool) (client_results : String → Option Json)
    (tc : ToolCall) (o : CallOutcome) (tr : List String)
    (h : process_tool_call parse tools approvals client_results tc = Except.ok (o, tr)) :
    outcomeId o = tc.id := by
  unfold process_tool_call at h
  dsimp only at h
  cases ht : toolMapGet tools tc.function.name <;> rw [ht] at h
  · rw [Except.ok.injEq, Prod.mk.injEq] at h
    obtain ⟨h1, -⟩ := h
    rw [← h1]
    rfl
  · cases hp : parse (defaultedArgs tc) <;> rw [hp] at h
    · simp_all
    · repeat' split at h
      all_goals first
        | (rw [Except.ok.injEq, Prod.mk.injEq] at h
           obtain ⟨h1, -⟩ := h
           rw [← h1]
           rfl)
        | simp_all

theorem process_tool_call_trace_id (parse : String → Option Json) (tools : List Tool)
    (approvals : String → Option Bool) (client_results : String → Option Json)
    (tc : ToolCall) (o : CallOutcome) (tr : List String)
    (h : process_tool_call parse tools approvals client_results tc = Except.ok (o, tr)) :
    ∀ i ∈ tr, i = tc.id := by
  unfold process_tool_call at h
  dsimp only at h
  cases ht : toolMapGet tools tc.function.name <;> rw [ht] at h
  · rw [Except.ok.injEq, Prod.mk.injEq] at h
    obtain ⟨-, h2⟩ := h
    rw [← h2]
    simp
  · cases hp : parse (defaultedArgs tc) <;> rw [hp] at h
    · simp_all
    · repeat' split at h
      all_goals first
        | (rw [Except.ok.injEq, Prod.mk.injEq] at h
           obtain ⟨-, h2⟩ := h
           rw [← h2]
           simp)
        | simp_all

/-! ### Batch facts about `execute_tool_calls` -/

theorem process_calls_cons_inv (parse : String → Option Json) (tools : List Tool)
    (approvals : String → Option Bool) (client_results : String → Option Json)
    (tc : ToolCall) (rest : List ToolCall) (os : List CallOutcome) (tr : List String)
    (hok : process_calls parse tools approvals client_results (tc :: rest) =
      Except.ok (os, tr)) :
    ∃ o tro os2 trs, process_tool_call parse tools approvals client_results tc =
        Except.ok (o, tro) ∧
      process_calls parse tools approvals client_results rest = Except.ok (os2, trs) ∧
      os = o :: os2 ∧ tr = tro ++ trs := by
  unfold process_calls at hok
  cases h1 : process_tool_call parse tools approvals client_results tc <;> rw [h1] at hok
  · simp [Bind.bind, Except.bind] at hok
  · rename_i p1
    obtain ⟨o, tro⟩ := p1
    cases h2 : process_calls parse tools approvals client_results rest <;> rw [h2] at hok
    · simp [Bind.bind, Except.bind] at hok
    · rename_i p2
      obtain ⟨os2, trs⟩ := p2
      simp only [Bind.bind, Except.bind, Except.ok.injEq, Prod.mk.injEq] at hok
      exact ⟨o, tro, os2, trs, rfl, rfl, hok.1.symm, hok.2.symm⟩

theorem process_calls_ok_of (parse : String → Option Json) (tools : List Tool)
    (approvals : String → Option Bool) (client_results : String → Option Json)
    (calls : List ToolCall)
    (h : ∀ tc ∈ calls, (toolMapGet tools tc.function.name).isSome = true →
         (parse (defaultedArgs tc)).isSome = true) :
    ∃ os tr, process_calls parse tools approvals client_results calls =
      Except.ok (os, tr) := by
  induction calls with
  | nil => exact ⟨[], [], rfl⟩
  | cons tc rest ih =>
    obtain ⟨o, tro, ho⟩ := process_tool_call_ok_of parse tools approvals client_results tc
      (h tc (by simp))
    obtain ⟨os, trs, hos⟩ := ih (fun tc' h' => h tc' (by simp [h']))
    refine ⟨o :: os, tro ++ trs, ?_⟩
    unfold process_calls
    rw [ho, hos]
    rfl

theorem process_calls_error_of (parse : String → Option Json) (tools : List Tool)
    (approvals : String → Option Bool) (client_results : String → Option Json)
    (calls : List ToolCall)
    (h : ∃ tc ∈ calls, ∀ r, process_tool_call parse tools approvals client_results tc ≠
         Except.ok r) :
    ∃ e, process_calls parse tools approvals client_results calls = Except.error e := by
  induction calls with
  | nil => obtain ⟨tc, hm, -⟩ := h; exact absurd hm (by simp)
  | cons tc rest ih =>
    cases h1 : process_tool_call parse tools approvals client_results tc with
    | error e =>
      refine ⟨e, ?_⟩
      unfold process_calls
      rw [h1]
      rfl
    | ok p =>
      obtain ⟨tcw, hm, hne⟩ := h
      rcases List.mem_cons.mp hm with heq | hmr
      · subst heq
        exact absurd h1 (hne p)
      · obtain ⟨e, he⟩ := ih ⟨tcw, hmr, hne⟩
        refine ⟨e, ?_⟩
        unfold process_calls
        rw [h1, he]
        obtain ⟨o, tro⟩ := p
        rfl

theorem process_calls_outcome_mem (parse : String → Option Json) (tools : List Tool)
    (approvals : String → Option Bool) (client_results : String → Option Json)
    (calls : List ToolCall) (os : List CallOutcome) (tr : List String)
    (hok : process_calls parse tools approvals client_results calls = Except.ok (os, tr))
    (tc : ToolCall) (hm : tc ∈ calls) :
    ∃ o tro, process_tool_call parse tools approvals client_results tc =
      Except.ok (o, tro) ∧ o ∈ os := by
  induction calls generalizing os tr with
  | nil => exact absurd hm (by simp)
  | cons hd rest ih =>
    obtain ⟨o, tro, os2, trs, h1, h2, hos, -⟩ :=
      process_calls_cons_inv parse tools approvals client_results hd rest os tr hok
    subst hos
    rcases List.mem_cons.mp hm with heq | hmr
    · subst heq
      exact ⟨o, tro, h1, List.mem_cons_self _ _⟩
    · obtain ⟨o2, tro2, h3, h4⟩ := ih os2 trs h2 hmr
      exact ⟨o2, tro2, h3, List.mem_cons_of_mem _ h4⟩

theorem process_calls_ids (parse : String → Option Json) (tools : List Tool)
    (approvals : String → Option Bool) (client_results : String → Option Json)
    (calls : List ToolCall) (os : List CallOutcome) (tr : List String)
    (hok : process_calls parse tools approvals client_results calls = Except.ok (os, tr)) :
    os.map outcomeId = calls.map ToolCall.id := by
  induction calls generalizing os tr with
  | nil =>
    unfold process_calls at hok
    simp only [Except.ok.injEq, Prod.mk.injEq] at hok
    rw [← hok.1]
    rfl
  | cons hd rest ih =>
    obtain ⟨o, tro, os2, trs, h1, h2, hos, -⟩ :=
      process_calls_cons_inv parse tools approvals client_results hd rest os tr hok
    subst hos
    simp only [List.map_cons]
    rw [process_tool_call_ok_id parse tools approvals client_results hd o tro h1, ih os2 trs h2]

theorem process_calls_trace (parse : String → Option Json) (tools : List Tool)
    (approvals : String → Option Bool) (client_results : String → Option Json)
    (calls : List ToolCall) (os : List CallOutcome) (tr : List String)
    (hok : process_calls parse tools approvals client_results calls = Except.ok (os, tr))
    (i : String) (hi : i ∈ tr) :
    ∃ tc ∈ calls, ∃ o tro, process_tool_call parse tools approvals client_results tc =
      Except.ok (o, tro) ∧ i ∈ tro := by
  induction calls generalizing os tr with
  | nil =>
    unfold process_calls at hok
    simp only [Except.ok.injEq, Prod.mk.injEq] at hok
    rw [← hok.2] at hi
    exact absurd hi (by simp)
  | cons hd rest ih =>
    obtain ⟨o, tro, os2, trs, h1, h2, -, htr⟩ :=
      process_calls_cons_inv parse tools approvals client_results hd rest os tr hok
    subst htr
    rcases List.mem_append.mp hi with hl | hr
    · exact ⟨hd, List.mem_cons_self _ _, o, tro, h1, hl⟩
    · obtain ⟨tc, hm, o2, tro2, h3, h4⟩ := ih os2 trs h2 hr
      exact ⟨tc, List.mem_cons_of_mem _ hm, o2, tro2, h3, h4⟩

theorem process_tool_call_declined (parse : String → Option Json) (tools : List Tool)
    (approvals : String → Option Bool) (client_results : String → Option Json)
    (tc : ToolCall) (tool : Tool) (j : Json)
    (ht : toolMapGet tools tc.function.name = some tool)
    (hna : tool.needs_approval = true)
    (ha : approvals ("approval_" ++ tc.id) = some false)
    (hj : parse (defaultedArgs tc) = some j) :
    process_tool_call parse tools approvals client_results tc =
      Except.ok (CallOutcome.res
        ⟨tc.id, tc.function.name, errorPayload "User declined tool execution",
         some "output-error"⟩, []) := by
  unfold process_tool_call
  dsimp only
  rw [ht, hj]
  cases he : tool.execute.isNone <;> simp [he, hna, ha]

theorem partitionOutcomes_results_sublist (os : List CallOutcome) :
    ((partitionOutcomes os).results.map ToolResult.tool_call_id).Sublist
      (os.map outcomeId) := by
  induction os with
  | nil => simp [partitionOutcomes]
  | cons o rest ih =>
    cases o with
    | res x =>
      simp only [partitionOutcomes, List.map_cons, outcomeId]
      exact ih.cons₂ _
    | approval x =>
      simp only [partitionOutcomes, List.map_cons, outcomeId]
      exact ih.cons _
    | client x =>
      simp only [partitionOutcomes, List.map_cons, outcomeId]
      exact ih.cons _

theorem partitionOutcomes_approval_sublist (os : List CallOutcome) :
    ((partitionOutcomes os).needs_approval.map ApprovalRequest.tool_call_id).Sublist
      (os.map outcomeId) := by
  induction os with
  | nil => simp [partitionOutcomes]
  | cons o rest ih =>
    cases o with
    | res x =>
      simp only [partitionOutcomes, List.map_cons, outcomeId]
      exact ih.cons _
    | approval x =>
      simp only [partitionOutcomes, List.map_cons, outcomeId]
      exact ih.cons₂ _
    | client x =>
      simp only [partitionOutcomes, List.map_cons, outcomeId]
      exact ih.cons _

theorem partitionOutcomes_client_sublist (os : List CallOutcome) :
    ((partitionOutcomes os).needs_client_execution.map ClientToolRequest.tool_call_id).Sublist
      (os.map outcomeId) := by
  induction os with
  | nil => simp [partitionOutcomes]
  | cons o rest ih =>
    cases o with
    | res x =>
      simp only [partitionOutcomes, List.map_cons, outcomeId]
      exact ih.cons _
    | approval x =>
      simp only [partitionOutcomes, List.map_cons, outcomeId]
      exact ih.cons _
    | client x =>
      simp only [partitionOutcomes, List.map_cons, outcomeId]
      exact ih.cons₂ _

theorem partitionOutcomes_res_mem (os : List CallOutcome) (x : ToolResult)
    (hm : CallOutcome.res x ∈ os) : x ∈ (partitionOutcomes os).results := by
  induction os with
  | nil => exact absurd hm (by simp)
  | cons o rest ih =>
    rcases List.mem_cons.mp hm with heq | hmr
    · rw [← heq]
      simp [partitionOutcomes]
    · cases o <;> simp [partitionOutcomes, ih hmr]

theorem partitionOutcomes_count (os : List CallOutcome) (i : String) :
    ((partitionOutcomes os).results.map ToolResult.tool_call_id).count i +
    ((partitionOutcomes os).needs_approval.map ApprovalRequest.tool_call_id).count i +
    ((partitionOutcomes os).needs_client_execution.map ClientToolRequest.tool_call_id).count i =
    (os.map outcomeId).count i := by
  induction os with
  | nil => simp [partitionOutcomes]
  | cons o rest ih =>
    cases o <;> simp [partitionOutcomes, outcomeId, List.count_cons] <;> omega

/-- C4: `execute_tool_calls` treats failures asymmetrically.  (1) When every
call resolving to a registered tool has parseable (defaulted) arguments,
the batch succeeds and each unknown-named call nevertheless contributes an
`output-error` ToolResult with an explanatory payload.  (2) When some call
resolving to a registered tool has arguments that fail to parse, the whole
batch raises, so no `ExecuteToolCallsResult` is produced. -/
theorem c4_error_asymmetry (parse : String → Option Json) (tools : List Tool)
    (approvals : String → Option Bool) (client_results : String → Option Json)
    (calls : List ToolCall) :
    ((∀ tc ∈ calls, (toolMapGet tools tc.function.name).isSome = true →
        (parse (defaultedArgs tc)).isSome = true) →
      ∃ r trace,
        execute_tool_calls parse calls tools approvals client_results =
          Except.ok (r, trace) ∧
        ∀ tc ∈ calls, toolMapGet tools tc.function.name = none →
          (⟨tc.id, tc.function.name, errorPayload ("Unknown tool: " ++ tc.function.name),
            some "output-error"⟩ : ToolResult) ∈ r.results) ∧
    ((∃ tc ∈ calls, (toolMapGet tools tc.function.name).isSome = true ∧
        parse (defaultedArgs tc) = none) →
      ∃ e, execute_tool_calls parse calls tools approvals client_results =
        Except.error e) := by
  constructor
  · intro h
    obtain ⟨os, tr, hok⟩ := process_calls_ok_of parse tools approvals client_results calls h
    refine ⟨partitionOutcomes os, tr, ?_, ?_⟩
    · unfold execute_tool_calls
      rw [hok]
      rfl
    · intro tc hm hunk
      obtain ⟨o, tro, ho, homem⟩ :=
        process_calls_outcome_mem parse tools approvals client_results calls os tr hok tc hm
      rw [process_tool_call_unknown parse tools approvals client_results tc hunk] at ho
      rw [Except.ok.injEq, Prod.mk.injEq] at ho
      obtain ⟨h1, -⟩ := ho
      rw [← h1] at homem
      exact partitionOutcomes_res_mem os _ homem
  · rintro ⟨tc, hm, hsome, hnone⟩
    obtain ⟨tool, ht⟩ := Option.isSome_iff_exists.mp hsome
    obtain ⟨e, he⟩ := process_calls_error_of parse tools approvals client_results calls
      ⟨tc, hm, fun p hp => by
        rw [process_tool_call_badjson parse tools approvals client_results tc tool ht hnone]
          at hp
        exact absurd hp (by simp)⟩
    refine ⟨e, ?_⟩
    unfold execute_tool_calls
    rw [he]
    rfl

/-- C6: on a batch of tool calls with pairwise-distinct ids whose arguments
all parse, `execute_tool_calls` succeeds and partitions the calls: the id
sequence of each of the three partitions is a sublist of the input id
sequence (input order preserved), and each input id lands in exactly one
partition entry overall (none dropped, none duplicated). -/
theorem c6_partition_exact (parse : String → Option Json) (tools : List Tool)
    (approvals : String → Option Bool) (client_results : String → Option Json)
    (calls : List ToolCall)
    (hnd : (calls.map ToolCall.id).Nodup)
    (hp : ∀ tc ∈ calls, (parse (defaultedArgs tc)).isSome = true) :
    ∃ r trace,
      execute_tool_calls parse calls tools approvals client_results =
        Except.ok (r, trace) ∧
      (r.results.map ToolResult.tool_call_id).Sublist (calls.map ToolCall.id) ∧
      (r.needs_approval.map ApprovalRequest.tool_call_id).Sublist (calls.map ToolCall.id) ∧
      (r.needs_client_execution.map ClientToolRequest.tool_call_id).Sublist
        (calls.map ToolCall.id) ∧
      ∀ i ∈ calls.map ToolCall.id,
        (r.results.map ToolResult.tool_call_id).count i +
        (r.needs_approval.map ApprovalRequest.tool_call_id).count i +
        (r.needs_client_execution.map ClientToolRequest.tool_call_id).count i = 1 := by
  obtain ⟨os, tr, hok⟩ := process_calls_ok_of parse tools approvals client_results calls
    (fun tc hm _ => hp tc hm)
  have hids := process_calls_ids parse tools approvals client_results calls os tr hok
  refine ⟨partitionOutcomes os, tr, ?_, ?_, ?_, ?_, ?_⟩
  · unfold execute_tool_calls
    rw [hok]
    rfl
  · rw [← hids]
    exact partitionOutcomes_results_sublist os
  · rw [← hids]
    exact partitionOutcomes_approval_sublist os
  · rw [← hids]
    exact partitionOutcomes_client_sublist os
  · intro i him
    have hcount := partitionOutcomes_count os i
    rw [hids] at hcount
    rw [hcount]
    exact List.count_eq_one_of_mem hnd him

/-- C5: a tool call resolving to a registry tool with `needs_approval` whose
approval `"approval_" + id` is recorded as `false` yields a ToolResult with
state `output-error` (declined payload), and the tool's `execute` capability
is never invoked — for server-side and client-side tools alike (the
theorem places no constraint on `tool.execute`). -/
theorem c5_declined_never_executes (parse : String → Option Json) (tools : List Tool)
    (approvals : String → Option Bool) (client_results : String → Option Json)
    (calls : List ToolCall) (tc : ToolCall) (tool : Tool)
    (r : ExecuteToolCallsResult) (trace : List String)
    (hmem : tc ∈ calls)
    (ht : toolMapGet tools tc.function.name = some tool)
    (hna : tool.needs_approval = true)
    (ha : approvals ("approval_" ++ tc.id) = some false)
    (huniq : ∀ tc' ∈ calls, tc'.id = tc.id → tc' = tc)
    (hok : execute_tool_calls parse calls tools approvals client_results =
      Except.ok (r, trace)) :
    (⟨tc.id, tc.function.name, errorPayload "User declined tool execution",
      some "output-error"⟩ : ToolResult) ∈ r.results ∧ tc.id ∉ trace := by
  unfold execute_tool_calls at hok
  cases hpc : process_calls parse tools approvals client_results calls <;> rw [hpc] at hok
  · exact absurd hok (by simp [Except.map])
  · rename_i p
    obtain ⟨os, tr0⟩ := p
    have hok2 : (partitionOutcomes os, tr0) = (r, trace) := by
      simpa [Except.map] using hok
    rw [Prod.mk.injEq] at hok2
    obtain ⟨hr, htr⟩ := hok2
    obtain ⟨o, tro, ho, homem⟩ :=
      process_calls_outcome_mem parse tools approvals client_results calls os tr0 hpc tc hmem
    have hjx : ∃ j, parse (defaultedArgs tc) = some j := by
      cases hpj : parse (defaultedArgs tc) with
      | none =>
        rw [process_tool_call_badjson parse tools approvals client_results tc tool ht hpj]
          at ho
        exact absurd ho (by simp)
      | some j => exact ⟨j, rfl⟩
    obtain ⟨j, hj⟩ := hjx
    have hdecl :=
      process_tool_call_declined parse tools approvals client_results tc tool j ht hna ha hj
    rw [hdecl, Except.ok.injEq, Prod.mk.injEq] at ho
    obtain ⟨ho1, -⟩ := ho
    constructor
    · rw [← hr]
      rw [← ho1] at homem
      exact partitionOutcomes_res_mem os _ homem
    · intro hin
      rw [← htr] at hin
      obtain ⟨tc', hm', o', tro', ho', hi'⟩ :=
        process_calls_trace parse tools approvals client_results calls os tr0 hpc tc.id hin
      have hid : tc.id = tc'.id :=
        process_tool_call_trace_id parse tools approvals client_results tc' o' tro' ho' _ hi'
      have heq : tc' = tc := huniq tc' hm' hid.symm
      subst heq
      rw [hdecl, Except.ok.injEq, Prod.mk.injEq] at ho'
      obtain ⟨-, ho2⟩ := ho'
      rw [← ho2] at hi'
      exact absurd hi' (by simp)

/-! ### Concrete fixtures for witnesses -/

/-- A concrete JSON parser stub accepting only the literal `"{}"`. -/
def parse0 : String → Option Json := fun s => if s = "{}" then some Json.emptyObj else none

/-- A client-side registry tool requiring approval. -/
def tool0 : Tool := ⟨"get_weather", true, none⟩

def call1 : ToolCall := ⟨"call1", ⟨"get_weather", "{}"⟩⟩

def callUnknown : ToolCall := ⟨"call2", ⟨"mystery", "{}"⟩⟩

def callBad : ToolCall := ⟨"call3", ⟨"get_weather", "not json"⟩⟩

/-- Approval map declining `call1`. -/
def approvals0 : String → Option Bool :=
  fun a => if a = "approval_call1" then some false else none

def noApprovals : String → Option Bool := fun _ => none

def noClientResults : String → Option Json := fun _ => none

theorem c4_error_asymmetry_witness :
    (∃ r trace,
      execute_tool_calls parse0 [callUnknown] [tool0] noApprovals noClientResults =
        Except.ok (r, trace) ∧
      ∀ tc ∈ [callUnknown], toolMapGet [tool0] tc.function.name = none →
        (⟨tc.id, tc.function.name, errorPayload ("Unknown tool: " ++ tc.function.name),
          some "output-error"⟩ : ToolResult) ∈ r.results) ∧
    (∃ e, execute_tool_calls parse0 [callBad] [tool0] noApprovals noClientResults =
      Except.error e) :=
  ⟨(c4_error_asymmetry parse0 [tool0] noApprovals noClientResults [callUnknown]).1
      (by decide),
   (c4_error_asymmetry parse0 [tool0] noApprovals noClientResults [callBad]).2
      ⟨callBad, by simp, by decide, rfl⟩⟩

theorem c5_declined_never_executes_witness :
    approvals0 ("approval_" ++ call1.id) = some false ∧
    ((⟨call1.id, call1.function.name, errorPayload "User declined tool execution",
      some "output-error"⟩ : ToolResult) ∈
      (ExecuteToolCallsResult.mk
        [⟨"call1", "get_weather", errorPayload "User declined tool execution",
          some "output-error"⟩] [] []).results ∧
      call1.id ∉ ([] : List String)) :=
  ⟨rfl,
   c5_declined_never_executes parse0 [tool0] approvals0 noClientResults [call1] call1 tool0
     (ExecuteToolCallsResult.mk
       [⟨"call1", "get_weather", errorPayload "User declined tool execution",
         some "output-error"⟩] [] []) []
     (by simp) rfl rfl rfl (by decide) rfl⟩

theorem c6_partition_exact_witness :
    ∃ r trace,
      execute_tool_calls parse0 [call1, callUnknown] [tool0] noApprovals noClientResults =
        Except.ok (r, trace) ∧
      (r.results.map ToolResult.tool_call_id).Sublist
        ([call1, callUnknown].map ToolCall.id) ∧
      (r.needs_approval.map ApprovalRequest.tool_call_id).Sublist
        ([call1, callUnknown].map ToolCall.id) ∧
      (r.needs_client_execution.map ClientToolRequest.tool_call_id).Sublist
        ([call1, callUnknown].map ToolCall.id) ∧
      ∀ i ∈ [call1, callUnknown].map ToolCall.id,
        (r.results.map ToolResult.tool_call_id).count i +
        (r.needs_approval.map ApprovalRequest.tool_call_id).count i +
        (r.needs_client_execution.map ClientToolRequest.tool_call_id).count i = 1 :=
  c6_partition_exact parse0 [tool0] noApprovals noClientResults [call1, callUnknown]
    (by decide) (by decide)

/-! ### RUN_STARTED uniqueness (converter lifecycle) -/

/-- Discriminator for RUN_STARTED events. -/
def isRunStartedB : AGEvent → Bool
  | .runStarted _ => true
  | _ => false

theorem maybeEmitRunStarted_false (s : ConvState) (h : s.has_emitted_run_started = false) :
    maybeEmitRunStarted s =
      ({ s with has_emitted_run_started := true }, [AGEvent.runStarted s.run_id]) := by
  simp [maybeEmitRunStarted, h]

theorem maybeEmitRunStarted_true (s : ConvState) (h : s.has_emitted_run_started = true) :
    maybeEmitRunStarted s = (s, []) := by
  simp [maybeEmitRunStarted, h]

theorem convert_anthropic_event_facts (parse : String → Option Json) (idGen : Nat → String)
    (s : ConvState) (e : AnthEvent) :
    (convert_anthropic_event parse idGen s e).1.has_emitted_run_started = true ∧
    (convert_anthropic_event parse idGen s e).2.countP isRunStartedB =
      (if s.has_emitted_run_started then 0 else 1) ∧
    (s.has_emitted_run_started = false →
      ((convert_anthropic_event parse idGen s e).2).head? =
        some (AGEvent.runStarted s.run_id)) := by
  cases hf : s.has_emitted_run_started
  · unfold convert_anthropic_event anthBlockStopTool
    rw [maybeEmitRunStarted_false s hf]
    rcases e with cb | d | _ | sr | _ | _
    · rcases cb with _ | (⟨tid, tname⟩ | _ | _) <;> simp [isRunStartedB]
    · rcases d with _ | (⟨t⟩ | ⟨t⟩ | ⟨pj⟩ | _)
      all_goals dsimp only
      all_goals repeat' split
      all_goals simp_all [isRunStartedB]
    · dsimp only
      repeat' split
      all_goals simp_all [isRunStartedB]
    · dsimp only
      repeat' split
      all_goals simp_all [isRunStartedB]
    · dsimp only
      repeat' split
      all_goals simp_all [isRunStartedB]
    · simp [isRunStartedB]
  · unfold convert_anthropic_event anthBlockStopTool
    rw [maybeEmitRunStarted_true s hf]
    rcases e with cb | d | _ | sr | _ | _
    · rcases cb with _ | (⟨tid, tname⟩ | _ | _) <;> simp_all [isRunStartedB]
    · rcases d with _ | (⟨t⟩ | ⟨t⟩ | ⟨pj⟩ | _)
      all_goals dsimp only
      all_goals repeat' split
      all_goals simp_all [isRunStartedB]
    · dsimp only
      repeat' split
      all_goals simp_all [isRunStartedB]
    · dsimp only
      repeat' split
      all_goals simp_all [isRunStartedB]
    · dsimp only
      repeat' split
      all_goals simp_all [isRunStartedB]
    · simp_all [isRunStartedB]

theorem openaiToolEnds_go (parse : String → Option Json) (m : List (Nat × ToolEntry))
    (acc : List AGEvent) :
    ∃ extra, m.foldl
      (fun acc p =>
        if p.2.started then
          acc ++ [AGEvent.toolCallEnd p.2.id p.2.name (parseOrEmpty parse p.2.input)]
        else acc) acc = acc ++ extra ∧
      ∀ x ∈ extra, ∃ a b c, x = AGEvent.toolCallEnd a b c := by
  induction m generalizing acc with
  | nil => exact ⟨[], by simp, by simp⟩
  | cons hd tl ih =>
    simp only [List.foldl_cons]
    by_cases hs : hd.2.started = true
    · rw [if_pos hs]
      obtain ⟨extra, he, hall⟩ :=
        ih (acc ++ [AGEvent.toolCallEnd hd.2.id hd.2.name (parseOrEmpty parse hd.2.input)])
      refine ⟨AGEvent.toolCallEnd hd.2.id hd.2.name (parseOrEmpty parse hd.2.input) :: extra,
        ?_, ?_⟩
      · rw [he]
        simp
      · intro x hx
        rcases List.mem_cons.mp hx with hx1 | hx2
        · exact ⟨_, _, _, hx1⟩
        · exact hall x hx2
    · rw [if_neg hs]
      exact ih acc

theorem openaiToolEnds_all (parse : String → Option Json) (m : List (Nat × ToolEntry)) :
    ∀ x ∈ openaiToolEnds parse m, ∃ a b c, x = AGEvent.toolCallEnd a b c := by
  obtain ⟨extra, he, hall⟩ := openaiToolEnds_go parse m []
  unfold openaiToolEnds
  rw [he]
  simpa using hall

theorem openaiToolEnds_countRS (parse : String → Option Json) (m : List (Nat × ToolEntry)) :
    (openaiToolEnds parse m).countP isRunStartedB = 0 := by
  rw [List.countP_eq_zero]
  intro x hx
  obtain ⟨a, b, c, hxe⟩ := openaiToolEnds_all parse m x hx
  rw [hxe]
  simp [isRunStartedB]

theorem oaiToolCallStep_split (s : ConvState) (chunks : List AGEvent)
    (tcd : OaiToolCallDelta) :
    (oaiToolCallStep s chunks tcd).1.has_emitted_run_started = s.has_emitted_run_started ∧
    ∃ extra, (oaiToolCallStep s chunks tcd).2 = chunks ++ extra ∧
      extra.countP isRunStartedB = 0 := by
  unfold oaiToolCallStep
  dsimp only
  repeat' split
  all_goals refine ⟨rfl, ?_⟩
  all_goals first
    | (refine ⟨[], ?_, rfl⟩
       simp
       done)
    | (refine ⟨_, rfl, ?_⟩
       simp [List.countP_cons, isRunStartedB]
       done)

theorem oaiFold_split (l : List OaiToolCallDelta) (s : ConvState) (chunks : List AGEvent) :
    (l.foldl (fun q tcd => oaiToolCallStep q.1 q.2 tcd) (s, chunks)).1.has_emitted_run_started
      = s.has_emitted_run_started ∧
    ∃ extra,
      (l.foldl (fun q tcd => oaiToolCallStep q.1 q.2 tcd) (s, chunks)).2 = chunks ++ extra ∧
      extra.countP isRunStartedB = 0 := by
  induction l generalizing s chunks with
  | nil => exact ⟨rfl, [], by simp, rfl⟩
  | cons hd tl ih =>
    simp only [List.foldl_cons]
    obtain ⟨hf1, e1, he1, hc1⟩ := oaiToolCallStep_split s chunks hd
    rcases hstep : oaiToolCallStep s chunks hd with ⟨s1, c1⟩
    rw [hstep] at hf1 he1
    dsimp only at hf1 he1
    obtain ⟨hf2, e2, he2, hc2⟩ := ih s1 c1
    constructor
    · exact hf2.trans hf1
    · refine ⟨e1 ++ e2, ?_, ?_⟩
      · rw [he2, he1, List.append_assoc]
      · rw [List.countP_append, hc1, hc2]

theorem oaiContentStage_split (p : ConvState × List AGEvent) (e : OaiEvent) :
    (oaiContentStage p e).1.has_emitted_run_started = p.1.has_emitted_run_started ∧
    ∃ extra, (oaiContentStage p e).2 = p.2 ++ extra ∧ extra.countP isRunStartedB = 0 := by
  obtain ⟨s, chunks⟩ := p
  unfold oaiContentStage
  dsimp only
  repeat' split
  all_goals refine ⟨rfl, ?_⟩
  all_goals first
    | (refine ⟨[], ?_, rfl⟩
       simp
       done)
    | (refine ⟨_, rfl, ?_⟩
       simp [List.countP_cons, isRunStartedB]
       done)

theorem oaiToolsStage_split (p : ConvState × List AGEvent) (e : OaiEvent) :
    (oaiToolsStage p e).1.has_emitted_run_started = p.1.has_emitted_run_started ∧
    ∃ extra, (oaiToolsStage p e).2 = p.2 ++ extra ∧ extra.countP isRunStartedB = 0 := by
  obtain ⟨s, chunks⟩ := p
  unfold oaiToolsStage
  dsimp only
  repeat' split
  · exact oaiFold_split _ s chunks
  all_goals exact ⟨rfl, [], by simp, rfl⟩

theorem oaiFinishStage_split (parse : String → Option Json)
    (p : ConvState × List AGEvent) (e : OaiEvent) :
    (oaiFinishStage parse p e).1.has_emitted_run_started = p.1.has_emitted_run_started ∧
    ∃ extra, (oaiFinishStage parse p e).2 = p.2 ++ extra ∧
      extra.countP isRunStartedB = 0 := by
  obtain ⟨s, chunks⟩ := p
  unfold oaiFinishStage
  dsimp only
  repeat' split
  all_goals refine ⟨rfl, ?_⟩
  · refine ⟨openaiToolEnds parse s.tool_calls_map ++
      [AGEvent.textMessageEnd s.message_id,
       AGEvent.runFinished (e.finish_reason.getD "") e.usage], ?_, ?_⟩
    · simp
    · simp [List.countP_append, openaiToolEnds_countRS, isRunStartedB]
  · refine ⟨openaiToolEnds parse s.tool_calls_map ++
      [AGEvent.runFinished (e.finish_reason.getD "") e.usage], ?_, ?_⟩
    · simp
    · simp [List.countP_append, openaiToolEnds_countRS, isRunStartedB]
  · exact ⟨[], by simp, rfl⟩

theorem convert_openai_event_facts (parse : String → Option Json)
    (s : ConvState) (e : OaiEvent) :
    (convert_openai_event parse s e).1.has_emitted_run_started = true ∧
    (convert_openai_event parse s e).2.countP isRunStartedB =
      (if s.has_emitted_run_started then 0 else 1) ∧
    (s.has_emitted_run_started = false →
      ((convert_openai_event parse s e).2).head? =
        some (AGEvent.runStarted s.run_id)) := by
  unfold convert_openai_event
  obtain ⟨hf1, e1, he1, hc1⟩ := oaiContentStage_split (maybeEmitRunStarted s) e
  obtain ⟨hf2, e2, he2, hc2⟩ :=
    oaiToolsStage_split (oaiContentStage (maybeEmitRunStarted s) e) e
  obtain ⟨hf3, e3, he3, hc3⟩ :=
    oaiFinishStage_split parse (oaiToolsStage (oaiContentStage (maybeEmitRunStarted s) e) e) e
  have hout : (oaiFinishStage parse
        (oaiToolsStage (oaiContentStage (maybeEmitRunStarted s) e) e) e).2 =
      (maybeEmitRunStarted s).2 ++ (e1 ++ (e2 ++ e3)) := by
    rw [he3, he2, he1, List.append_assoc, List.append_assoc]
  have hcnt : (e1 ++ (e2 ++ e3)).countP isRunStartedB = 0 := by
    simp [List.countP_append, hc1, hc2, hc3]
  cases hf : s.has_emitted_run_started
  · rw [maybeEmitRunStarted_false s hf] at hout hf1 hf2 hf3 ⊢
    refine ⟨?_, ?_, ?_⟩
    · rw [hf3, hf2, hf1]
    · rw [hout, List.countP_append, hcnt]
      simp [isRunStartedB, List.countP_cons]
    · intro
      rw [hout]
      simp
  · rw [maybeEmitRunStarted_true s hf] at hout hf1 hf2 hf3 ⊢
    refine ⟨?_, ?_, ?_⟩
    · rw [hf3, hf2, hf1]
      exact hf
    · rw [hout, List.countP_append, hcnt]
      simp [hf]
    · simp [hf]

theorem convert_error_facts (s : ConvState) (err : PyError) :
    (convert_error s err).1.has_emitted_run_started = true ∧
    (convert_error s err).2.countP isRunStartedB =
      (if s.has_emitted_run_started then 0 else 1) ∧
    (s.has_emitted_run_started = false →
      ((convert_error s err).2).head? = some (AGEvent.runStarted s.run_id)) := by
  cases hf : s.has_emitted_run_started
  · unfold convert_error
    rw [maybeEmitRunStarted_false s hf]
    simp [isRunStartedB, List.countP_cons]
  · unfold convert_error
    rw [maybeEmitRunStarted_true s hf]
    simp [isRunStartedB, List.countP_cons, hf]

theorem convStep_facts (parse : String → Option Json) (idGen : Nat → String)
    (s : ConvState) (c : ConvCall) :
    (convStep parse idGen s c).1.has_emitted_run_started = true ∧
    (convStep parse idGen s c).2.countP isRunStartedB =
      (if s.has_emitted_run_started then 0 else 1) ∧
    (s.has_emitted_run_started = false →
      ((convStep parse idGen s c).2).head? = some (AGEvent.runStarted s.run_id)) := by
  cases c with
  | anthropic e => exact convert_anthropic_event_facts parse idGen s e
  | openai e => exact convert_openai_event_facts parse s e
  | err e => exact convert_error_facts s e

theorem convRun_cons (parse : String → Option Json) (idGen : Nat → String)
    (s : ConvState) (c : ConvCall) (rest : List ConvCall) :
    convRun parse idGen s (c :: rest) =
      ((convRun parse idGen (convStep parse idGen s c).1 rest).1,
       (convStep parse idGen s c).2 ++
         (convRun parse idGen (convStep parse idGen s c).1 rest).2) := rfl

theorem convRun_count (parse : String → Option Json) (idGen : Nat → String)
    (calls : List ConvCall) (s : ConvState) :
    (s.has_emitted_run_started = true →
      ((convRun parse idGen s calls).2).countP isRunStartedB = 0) ∧
    (s.has_emitted_run_started = false → calls ≠ [] →
      ((convRun parse idGen s calls).2).countP isRunStartedB = 1 ∧
      ((convRun parse idGen s calls).2).head? = some (AGEvent.runStarted s.run_id)) := by
  induction calls generalizing s with
  | nil =>
    refine ⟨fun _ => rfl, fun _ hne => absurd rfl hne⟩
  | cons c rest ih =>
    rw [convRun_cons]
    obtain ⟨hfs, hcs, hhs⟩ := convStep_facts parse idGen s c
    obtain ⟨ih0, -⟩ := ih (convStep parse idGen s c).1
    constructor
    · intro hf
      dsimp only
      rw [List.countP_append, hcs, if_pos hf, ih0 hfs]
    · intro hf hne
      constructor
      · dsimp only
        rw [List.countP_append, hcs, ih0 hfs, hf]
        simp
      · dsimp only
        have h1 := hhs hf
        have hno : (convStep parse idGen s c).2 ≠ [] := by
          intro hh
          rw [hh] at h1
          exact absurd h1 (by simp)
        rw [List.head?_append_of_ne_nil _ hno, h1]

/-- C2: on a freshly constructed converter, for any sequence of calls to
`convert_anthropic_event`, `convert_openai_event` and `convert_error`, the
concatenation of the returned event lists, when non-empty, has RUN_STARTED
first and contains RUN_STARTED exactly once. -/
theorem c2_run_started_first_unique (parse : String → Option Json) (idGen : Nat → String)
    (calls : List ConvCall)
    (hne : (convRun parse idGen (ConvState.init idGen) calls).2 ≠ []) :
    ((convRun parse idGen (ConvState.init idGen) calls).2).head? =
      some (AGEvent.runStarted (ConvState.init idGen).run_id) ∧
    ((convRun parse idGen (ConvState.init idGen) calls).2).countP isRunStartedB = 1 := by
  have hinit : (ConvState.init idGen).has_emitted_run_started = false := rfl
  cases calls with
  | nil => exact absurd rfl hne
  | cons c rest =>
    obtain ⟨-, h1⟩ := convRun_count parse idGen (c :: rest) (ConvState.init idGen)
    obtain ⟨hc, hh⟩ := h1 hinit (by simp)
    exact ⟨hh, hc⟩

/-- Deterministic id generator for witnesses. -/
def c2idGen : Nat → String := fun n => "id-" ++ toString n

theorem c2_run_started_first_unique_witness :
    ((convRun parse0 c2idGen (ConvState.init c2idGen)
        [ConvCall.err ⟨"boom", none, "ValueError"⟩]).2 ≠ []) ∧
    (((convRun parse0 c2idGen (ConvState.init c2idGen)
        [ConvCall.err ⟨"boom", none, "ValueError"⟩]).2).head? =
      some (AGEvent.runStarted (ConvState.init c2idGen).run_id) ∧
     ((convRun parse0 c2idGen (ConvState.init c2idGen)
        [ConvCall.err ⟨"boom", none, "ValueError"⟩]).2).countP isRunStartedB = 1) :=
  ⟨fun h => absurd (congrArg List.length h) (by decide),
   c2_run_started_first_unique parse0 c2idGen [ConvCall.err ⟨"boom", none, "ValueError"⟩]
     (fun h => absurd (congrArg List.length h) (by decide))⟩

/-! ### TEXT_MESSAGE_START/END lifecycle -/

/-- Discriminator for TEXT_MESSAGE_START events. -/
def isTextStartB : AGEvent → Bool
  | .textMessageStart _ => true
  | _ => false

/-- Discriminator for TEXT_MESSAGE_END events. -/
def isTextEndB : AGEvent → Bool
  | .textMessageEnd _ => true
  | _ => false

theorem convert_anthropic_event_textEnd (parse : String → Option Json)
    (idGen : Nat → String) (s : ConvState) (e : AnthEvent) :
    ((convert_anthropic_event parse idGen s e).2).countP isTextEndB =
      (if e = AnthEvent.content_block_stop ∧ s.has_emitted_text_message_start = true ∧
          s.accumulated_content ≠ "" then 1 else 0) := by
  cases hf : s.has_emitted_run_started
  all_goals
    unfold convert_anthropic_event anthBlockStopTool
  · rw [maybeEmitRunStarted_false s hf]
    rcases e with cb | d | _ | sr | _ | _
    · rcases cb with _ | (⟨tid, tname⟩ | _ | _) <;>
        simp [isTextEndB, List.countP_cons]
    · rcases d with _ | (⟨t⟩ | ⟨t⟩ | ⟨pj⟩ | _)
      all_goals dsimp only
      all_goals repeat' split
      all_goals simp_all [isTextEndB, List.countP_cons]
    · dsimp only
      repeat' split
      all_goals simp_all [isTextEndB, List.countP_cons, List.countP_append]
    · dsimp only
      repeat' split
      all_goals simp_all [isTextEndB, List.countP_cons]
    · dsimp only
      repeat' split
      all_goals simp_all [isTextEndB, List.countP_cons]
    · simp [isTextEndB]
  · rw [maybeEmitRunStarted_true s hf]
    rcases e with cb | d | _ | sr | _ | _
    · rcases cb with _ | (⟨tid, tname⟩ | _ | _) <;>
        simp [isTextEndB, List.countP_cons]
    · rcases d with _ | (⟨t⟩ | ⟨t⟩ | ⟨pj⟩ | _)
      all_goals dsimp only
      all_goals repeat' split
      all_goals simp_all [isTextEndB, List.countP_cons]
    · dsimp only
      repeat' split
      all_goals simp_all [isTextEndB, List.countP_cons, List.countP_append]
    · dsimp only
      repeat' split
      all_goals simp_all [isTextEndB, List.countP_cons]
    · dsimp only
      repeat' split
      all_goals simp_all [isTextEndB, List.countP_cons]
    · simp [isTextEndB]

theorem string_len_zero (b : String) (h : b.length = 0) : b = "" := by
  cases b with
  | mk d =>
    have hd : d = [] := List.length_eq_zero.mp h
    rw [hd]

theorem string_append_ne_right (a b : String) (hb : b ≠ "") : a ++ b ≠ "" := by
  intro h
  have hl := congrArg String.length h
  rw [String.length_append] at hl
  have h0 : ("" : String).length = 0 := rfl
  rw [h0] at hl
  exact hb (string_len_zero b (by omega))

theorem string_append_ne_left (a b : String) (ha : a ≠ "") : a ++ b ≠ "" := by
  intro h
  have hl := congrArg String.length h
  rw [String.length_append] at hl
  have h0 : ("" : String).length = 0 := rfl
  rw [h0] at hl
  exact ha (string_len_zero a (by omega))

theorem convert_anthropic_event_textFlag (parse : String → Option Json)
    (idGen : Nat → String) (s : ConvState) (e : AnthEvent) :
    ((convert_anthropic_event parse idGen s e).1.has_emitted_text_message_start = true ↔
      (s.has_emitted_text_message_start = true ∨
       0 < ((convert_anthropic_event parse idGen s e).2).countP isTextStartB)) := by
  cases hf : s.has_emitted_run_started
  all_goals
    unfold convert_anthropic_event anthBlockStopTool
  · rw [maybeEmitRunStarted_false s hf]
    rcases e with cb | d | _ | sr | _ | _
    · rcases cb with _ | (⟨tid, tname⟩ | _ | _) <;>
        simp [isTextStartB, List.countP_cons]
    · rcases d with _ | (⟨t⟩ | ⟨t⟩ | ⟨pj⟩ | _)
      all_goals dsimp only
      all_goals repeat' split
      all_goals simp_all [isTextStartB, List.countP_cons]
    · dsimp only
      repeat' split
      all_goals simp_all [isTextStartB, List.countP_cons, List.countP_append]
    · dsimp only
      repeat' split
      all_goals simp_all [isTextStartB, List.countP_cons]
    · dsimp only
      repeat' split
      all_goals simp_all [isTextStartB, List.countP_cons]
    · simp [isTextStartB]
  · rw [maybeEmitRunStarted_true s hf]
    rcases e with cb | d | _ | sr | _ | _
    · rcases cb with _ | (⟨tid, tname⟩ | _ | _) <;>
        simp [isTextStartB, List.countP_cons]
    · rcases d with _ | (⟨t⟩ | ⟨t⟩ | ⟨pj⟩ | _)
      all_goals dsimp only
      all_goals repeat' split
      all_goals simp_all [isTextStartB, List.countP_cons]
    · dsimp only
      repeat' split
      all_goals simp_all [isTextStartB, List.countP_cons, List.countP_append]
    · dsimp only
      repeat' split
      all_goals simp_all [isTextStartB, List.countP_cons]
    · dsimp only
      repeat' split
      all_goals simp_all [isTextStartB, List.countP_cons]
    · simp [isTextStartB]

theorem oaiContentStage_text (p : ConvState × List AGEvent) (e : OaiEvent) :
    (oaiContentStage p e).1.has_emitted_text_message_start =
      (p.1.has_emitted_text_message_start || otruthy e.content) ∧
    (oaiContentStage p e).1.accumulated_content =
      (if otruthy e.content = true then p.1.accumulated_content ++ e.content.getD ""
       else p.1.accumulated_content) ∧
    (oaiContentStage p e).2.countP isTextStartB = p.2.countP isTextStartB +
      (if otruthy e.content = true ∧ p.1.has_emitted_text_message_start = false
       then 1 else 0) ∧
    (oaiContentStage p e).2.countP isTextEndB = p.2.countP isTextEndB := by
  obtain ⟨s, chunks⟩ := p
  unfold oaiContentStage
  dsimp only
  repeat' split
  all_goals simp_all [isTextStartB, isTextEndB, List.countP_cons, List.countP_append]

theorem oaiToolCallStep_text (s : ConvState) (chunks : List AGEvent)
    (tcd : OaiToolCallDelta) :
    (oaiToolCallStep s chunks tcd).1.has_emitted_text_message_start =
      s.has_emitted_text_message_start ∧
    (oaiToolCallStep s chunks tcd).1.accumulated_content = s.accumulated_content ∧
    (oaiToolCallStep s chunks tcd).2.countP isTextStartB = chunks.countP isTextStartB ∧
    (oaiToolCallStep s chunks tcd).2.countP isTextEndB = chunks.countP isTextEndB := by
  unfold oaiToolCallStep
  dsimp only
  repeat' split
  all_goals
    simp_all [isTextStartB, isTextEndB, List.countP_cons, List.countP_append]

theorem oaiFold_text (l : List OaiToolCallDelta) (s : ConvState) (chunks : List AGEvent) :
    (l.foldl (fun q tcd => oaiToolCallStep q.1 q.2 tcd) (s, chunks)).1.has_emitted_text_message_start
      = s.has_emitted_text_message_start ∧
    (l.foldl (fun q tcd => oaiToolCallStep q.1 q.2 tcd) (s, chunks)).1.accumulated_content
      = s.accumulated_content ∧
    (l.foldl (fun q tcd => oaiToolCallStep q.1 q.2 tcd) (s, chunks)).2.countP isTextStartB
      = chunks.countP isTextStartB ∧
    (l.foldl (fun q tcd => oaiToolCallStep q.1 q.2 tcd) (s, chunks)).2.countP isTextEndB
      = chunks.countP isTextEndB := by
  induction l generalizing s chunks with
  | nil => exact ⟨rfl, rfl, rfl, rfl⟩
  | cons hd tl ih =>
    simp only [List.foldl_cons]
    obtain ⟨h1, h2, h3, h4⟩ := oaiToolCallStep_text s chunks hd
    rcases hstep : oaiToolCallStep s chunks hd with ⟨s1, c1⟩
    rw [hstep] at h1 h2 h3 h4
    dsimp only at h1 h2 h3 h4
    obtain ⟨g1, g2, g3, g4⟩ := ih s1 c1
    exact ⟨g1.trans h1, g2.trans h2, g3.trans h3, g4.trans h4⟩

theorem oaiToolsStage_text (p : ConvState × List AGEvent) (e : OaiEvent) :
    (oaiToolsStage p e).1.has_emitted_text_message_start =
      p.1.has_emitted_text_message_start ∧
    (oaiToolsStage p e).1.accumulated_content = p.1.accumulated_content ∧
    (oaiToolsStage p e).2.countP isTextStartB = p.2.countP isTextStartB ∧
    (oaiToolsStage p e).2.countP isTextEndB = p.2.countP isTextEndB := by
  obtain ⟨s, chunks⟩ := p
  unfold oaiToolsStage
  dsimp only
  repeat' split
  · exact oaiFold_text _ s chunks
  all_goals exact ⟨rfl, rfl, rfl, rfl⟩

theorem openaiToolEnds_countTextEnd (parse : String → Option Json)
    (m : List (Nat × ToolEntry)) :
    (openaiToolEnds parse m).countP isTextEndB = 0 := by
  rw [List.countP_eq_zero]
  intro x hx
  obtain ⟨a, b, c, hxe⟩ := openaiToolEnds_all parse m x hx
  rw [hxe]
  simp [isTextEndB]

theorem oaiFinishStage_textEnd (parse : String → Option Json)
    (p : ConvState × List AGEvent) (e : OaiEvent) :
    (oaiFinishStage parse p e).2.countP isTextEndB = p.2.countP isTextEndB +
      (if otruthy e.finish_reason = true ∧ p.1.has_emitted_text_message_start = true
       then 1 else 0) := by
  obtain ⟨s, chunks⟩ := p
  unfold oaiFinishStage
  dsimp only
  repeat' split
  all_goals
    simp_all [isTextEndB, List.countP_cons, List.countP_append, openaiToolEnds_countTextEnd]

theorem maybeEmitRunStarted_text (s : ConvState) :
    (maybeEmitRunStarted s).1.has_emitted_text_message_start =
      s.has_emitted_text_message_start ∧
    (maybeEmitRunStarted s).1.accumulated_content = s.accumulated_content ∧
    (maybeEmitRunStarted s).2.countP isTextStartB = 0 ∧
    (maybeEmitRunStarted s).2.countP isTextEndB = 0 := by
  unfold maybeEmitRunStarted
  split <;> simp [isTextStartB, isTextEndB, List.countP_cons]

theorem openaiToolEnds_countTextStart (parse : String → Option Json)
    (m : List (Nat × ToolEntry)) :
    (openaiToolEnds parse m).countP isTextStartB = 0 := by
  rw [List.countP_eq_zero]
  intro x hx
  obtain ⟨a, b, c, hxe⟩ := openaiToolEnds_all parse m x hx
  rw [hxe]
  simp [isTextStartB]

theorem oaiFinishStage_textStart (parse : String → Option Json)
    (p : ConvState × List AGEvent) (e : OaiEvent) :
    (oaiFinishStage parse p e).2.countP isTextStartB = p.2.countP isTextStartB := by
  obtain ⟨s, chunks⟩ := p
  unfold oaiFinishStage
  dsimp only
  repeat' split
  all_goals
    simp_all [isTextStartB, List.countP_cons, List.countP_append, openaiToolEnds_countTextStart]

theorem oaiFinishStage_state (parse : String → Option Json)
    (p : ConvState × List AGEvent) (e : OaiEvent) :
    (oaiFinishStage parse p e).1.has_emitted_text_message_start =
      p.1.has_emitted_text_message_start ∧
    (oaiFinishStage parse p e).1.accumulated_content = p.1.accumulated_content := by
  obtain ⟨s, chunks⟩ := p
  unfold oaiFinishStage
  dsimp only
  repeat' split
  all_goals exact ⟨rfl, rfl⟩

theorem convert_openai_event_text (parse : String → Option Json) (s : ConvState)
    (e : OaiEvent) :
    (convert_openai_event parse s e).1.has_emitted_text_message_start =
      (s.has_emitted_text_message_start || otruthy e.content) ∧
    (convert_openai_event parse s e).2.countP isTextStartB =
      (if otruthy e.content = true ∧ s.has_emitted_text_message_start = false
       then 1 else 0) ∧
    (convert_openai_event parse s e).2.countP isTextEndB =
      (if otruthy e.finish_reason = true ∧
          (s.has_emitted_text_message_start || otruthy e.content) = true
       then 1 else 0) ∧
    (convert_openai_event parse s e).1.accumulated_content =
      (if otruthy e.content = true then s.accumulated_content ++ e.content.getD ""
       else s.accumulated_content) := by
  unfold convert_openai_event
  obtain ⟨m1, m2, m3, m4⟩ := maybeEmitRunStarted_text s
  obtain ⟨c1, c2, c3, c4⟩ := oaiContentStage_text (maybeEmitRunStarted s) e
  obtain ⟨t1, t2, t3, t4⟩ := oaiToolsStage_text (oaiContentStage (maybeEmitRunStarted s) e) e
  obtain ⟨f1, f2⟩ :=
    oaiFinishStage_state parse (oaiToolsStage (oaiContentStage (maybeEmitRunStarted s) e) e) e
  refine ⟨?_, ?_, ?_, ?_⟩
  · rw [f1, t1, c1, m1]
  · rw [oaiFinishStage_textStart, t3, c3, m3, m1]
    simp
  · rw [oaiFinishStage_textEnd, t4, c4, m4, t1, c1, m1]
    simp
  · rw [f2, t2, c2, m2]

theorem convert_error_text (s : ConvState) (err : PyError) :
    (convert_error s err).1.has_emitted_text_message_start =
      s.has_emitted_text_message_start ∧
    (convert_error s err).1.accumulated_content = s.accumulated_content ∧
    (convert_error s err).2.countP isTextStartB = 0 ∧
    (convert_error s err).2.countP isTextEndB = 0 := by
  unfold convert_error
  obtain ⟨m1, m2, m3, m4⟩ := maybeEmitRunStarted_text s
  rcases hm : maybeEmitRunStarted s with ⟨s0, c0⟩
  rw [hm] at m1 m2 m3 m4
  dsimp only at m1 m2 m3 m4 ⊢
  refine ⟨m1, m2, ?_, ?_⟩
  · rw [List.countP_append, m3]
    simp [isTextStartB, List.countP_cons]
  · rw [List.countP_append, m4]
    simp [isTextEndB, List.countP_cons]

theorem otruthy_getD (o : Option String) (h : otruthy o = true) : o.getD "" ≠ "" := by
  cases o <;> simp_all [otruthy]

theorem convStep_textFlag (parse : String → Option Json) (idGen : Nat → String)
    (s : ConvState) (c : ConvCall) :
    ((convStep parse idGen s c).1.has_emitted_text_message_start = true ↔
      (s.has_emitted_text_message_start = true ∨
       0 < ((convStep parse idGen s c).2).countP isTextStartB)) := by
  cases c with
  | anthropic e => exact convert_anthropic_event_textFlag parse idGen s e
  | openai e =>
    obtain ⟨f, st, -, -⟩ := convert_openai_event_text parse s e
    rw [show convStep parse idGen s (ConvCall.openai e) = convert_openai_event parse s e
        from rfl, f, st]
    cases hfl : s.has_emitted_text_message_start <;> cases hc : otruthy e.content <;> simp
  | err e =>
    obtain ⟨f, -, st, -⟩ := convert_error_text s e
    rw [show convStep parse idGen s (ConvCall.err e) = convert_error s e from rfl, f, st]
    simp

theorem convRun_textFlag (parse : String → Option Json) (idGen : Nat → String)
    (calls : List ConvCall) (s : ConvState) :
    ((convRun parse idGen s calls).1.has_emitted_text_message_start = true ↔
      (s.has_emitted_text_message_start = true ∨
       0 < ((convRun parse idGen s calls).2).countP isTextStartB)) := by
  induction calls generalizing s with
  | nil => simp [convRun]
  | cons c rest ih =>
    rw [convRun_cons]
    dsimp only
    rw [List.countP_append]
    have h1 := convStep_textFlag parse idGen s c
    have h2 := ih (convStep parse idGen s c).1
    rw [h1] at h2
    rw [h2]
    constructor
    · rintro (h | h)
      · rcases h with h | h
        · exact Or.inl h
        · exact Or.inr (by omega)
      · exact Or.inr (by omega)
    · rintro (h | h)
      · exact Or.inl (Or.inl h)
      · rcases Nat.lt_or_ge 0 ((convStep parse idGen s c).2.countP isTextStartB) with hx | hx
        · exact Or.inl (Or.inr hx)
        · exact Or.inr (by omega)

theorem convert_openai_event_inv (parse : String → Option Json) (s : ConvState)
    (e : OaiEvent)
    (hinv : s.has_emitted_text_message_start = true → s.accumulated_content ≠ "") :
    (convert_openai_event parse s e).1.has_emitted_text_message_start = true →
    (convert_openai_event parse s e).1.accumulated_content ≠ "" := by
  obtain ⟨f, -, -, ac⟩ := convert_openai_event_text parse s e
  rw [f, ac]
  intro hflag
  by_cases hc : otruthy e.content = true
  · rw [if_pos hc]
    exact string_append_ne_right _ _ (otruthy_getD _ hc)
  · rw [if_neg hc]
    apply hinv
    rw [Bool.or_eq_true] at hflag
    rcases hflag with h | h
    · exact h
    · exact absurd h hc

theorem oaiRun_inv (parse : String → Option Json) (idGen : Nat → String)
    (evs : List OaiEvent) (s : ConvState)
    (hinv : s.has_emitted_text_message_start = true → s.accumulated_content ≠ "") :
    (convRun parse idGen s (evs.map ConvCall.openai)).1.has_emitted_text_message_start = true →
    (convRun parse idGen s (evs.map ConvCall.openai)).1.accumulated_content ≠ "" := by
  induction evs generalizing s with
  | nil => exact hinv
  | cons e rest ih =>
    rw [List.map_cons, convRun_cons]
    dsimp only
    exact ih (convStep parse idGen s (ConvCall.openai e)).1
      (convert_openai_event_inv parse s e hinv)

/-- C7: a TEXT_MESSAGE_END is emitted at a block-close (Anthropic
`content_block_stop`) or finish point (OpenAI truthy `finish_reason`) iff
TEXT_MESSAGE_START was emitted earlier in the same run and the accumulated
text content is non-empty at that point (for OpenAI, "at that point" is
after this chunk's own content stage, whose output is part of the run);
in particular TEXT_MESSAGE_END never occurs without a prior
TEXT_MESSAGE_START. -/
theorem c7_text_message_end_iff (parse : String → Option Json) (idGen : Nat → String) :
    (∀ (evs : List AnthEvent) (e : AnthEvent),
      (0 < ((convert_anthropic_event parse idGen
          (convRun parse idGen (ConvState.init idGen) (evs.map ConvCall.anthropic)).1
          e).2).countP isTextEndB ↔
        (e = AnthEvent.content_block_stop ∧
         0 < ((convRun parse idGen (ConvState.init idGen)
            (evs.map ConvCall.anthropic)).2).countP isTextStartB ∧
         (convRun parse idGen (ConvState.init idGen)
            (evs.map ConvCall.anthropic)).1.accumulated_content ≠ ""))) ∧
    (∀ (evs : List OaiEvent) (e : OaiEvent),
      (0 < ((convert_openai_event parse
          (convRun parse idGen (ConvState.init idGen) (evs.map ConvCall.openai)).1
          e).2).countP isTextEndB ↔
        (otruthy e.finish_reason = true ∧
         0 < (((convRun parse idGen (ConvState.init idGen) (evs.map ConvCall.openai)).2) ++
           (oaiContentStage (maybeEmitRunStarted
              (convRun parse idGen (ConvState.init idGen) (evs.map ConvCall.openai)).1)
             e).2).countP isTextStartB ∧
         (oaiContentStage (maybeEmitRunStarted
            (convRun parse idGen (ConvState.init idGen) (evs.map ConvCall.openai)).1)
           e).1.accumulated_content ≠ ""))) := by
  have hinit : (ConvState.init idGen).has_emitted_text_message_start = false := rfl
  constructor
  · intro evs e
    have hA := convRun_textFlag parse idGen (evs.map ConvCall.anthropic) (ConvState.init idGen)
    rw [hinit] at hA
    simp only [Bool.false_eq_true, false_or] at hA
    rw [convert_anthropic_event_textEnd]
    constructor
    · intro h
      split_ifs at h with hcond
      · exact ⟨hcond.1, hA.mp hcond.2.1, hcond.2.2⟩
      · exact absurd h (by simp)
    · rintro ⟨he, hs, ha⟩
      rw [if_pos ⟨he, hA.mpr hs, ha⟩]
      norm_num
  · intro evs e
    have hA := convRun_textFlag parse idGen (evs.map ConvCall.openai) (ConvState.init idGen)
    rw [hinit] at hA
    simp only [Bool.false_eq_true, false_or] at hA
    have hB := oaiRun_inv parse idGen evs (ConvState.init idGen)
      (fun h => absurd h (by rw [hinit]; simp))
    obtain ⟨-, -, en, -⟩ :=
      convert_openai_event_text parse
        (convRun parse idGen (ConvState.init idGen) (evs.map ConvCall.openai)).1 e
    obtain ⟨cc1, cc2, cc3, -⟩ :=
      oaiContentStage_text (maybeEmitRunStarted
        (convRun parse idGen (ConvState.init idGen) (evs.map ConvCall.openai)).1) e
    obtain ⟨mm1, mm2, mm3, -⟩ :=
      maybeEmitRunStarted_text
        (convRun parse idGen (ConvState.init idGen) (evs.map ConvCall.openai)).1
    rw [en, List.countP_append, cc3, mm3, cc2, mm2]
    rw [mm1]
    constructor
    · intro h
      split_ifs at h with hcond
      · obtain ⟨hfr, hfc⟩ := hcond
        refine ⟨hfr, ?_, ?_⟩
        · cases hfl : (convRun parse idGen (ConvState.init idGen)
              (evs.map ConvCall.openai)).1.has_emitted_text_message_start
          · rw [hfl] at hfc
            simp only [Bool.false_or] at hfc
            rw [if_pos ⟨hfc, rfl⟩]
            omega
          · have := hA.mp hfl
            omega
        · by_cases hc : otruthy e.content = true
          · rw [if_pos hc]
            exact string_append_ne_right _ _ (otruthy_getD _ hc)
          · rw [if_neg hc]
            apply hB
            rw [Bool.or_eq_true] at hfc
            rcases hfc with h | h
            · exact h
            · exact absurd h hc
      · exact absurd h (by simp)
    · rintro ⟨hfr, hst, -⟩
      have hfc : ((convRun parse idGen (ConvState.init idGen)
          (evs.map ConvCall.openai)).1.has_emitted_text_message_start
            || otruthy e.content) = true := by
        cases hfl : (convRun parse idGen (ConvState.init idGen)
            (evs.map ConvCall.openai)).1.has_emitted_text_message_start
        · have hz : ((convRun parse idGen (ConvState.init idGen)
              (evs.map ConvCall.openai)).2).countP isTextStartB = 0 := by
            by_contra hnz
            exact absurd (hA.mpr (Nat.pos_of_ne_zero hnz)) (by rw [hfl]; simp)
          rw [hz] at hst
          cases hc : otruthy e.content
          · rw [hfl, hc] at hst
            rw [if_neg (by simp)] at hst
            exact absurd hst (by simp)
          · simp
        · simp
      rw [if_pos ⟨hfr, hfc⟩]
      norm_num

/-! ### Tool-call args/END round trip -/

/-- The `delta` fields of the TOOL_CALL_ARGS events for one `toolCallId`,
in emission order. -/
def argsDeltasFor (i : String) (l : List AGEvent) : List String :=
  l.filterMap (fun ev =>
    match ev with
    | AGEvent.toolCallArgs tid d _ => if tid = i then some d else none
    | _ => none)

/-- The TOOL_CALL_END events for one `toolCallId`, in emission order. -/
def toolEndsFor (i : String) (l : List AGEvent) : List AGEvent :=
  l.filter (fun ev =>
    match ev with
    | AGEvent.toolCallEnd tid _ _ => tid = i
    | _ => false)

theorem dictGet_cons {α : Type} (hd : Nat × α) (tl : List (Nat × α)) (k : Nat) :
    dictGet (hd :: tl) k = if hd.1 = k then some hd.2 else dictGet tl k := by
  unfold dictGet
  rw [List.find?]
  by_cases hk : hd.1 = k <;> simp [hk]

theorem dictGet_dictSet_self {α : Type} (m : List (Nat × α)) (k : Nat) (v : α) :
    dictGet (dictSet m k v) k = some v := by
  unfold dictSet
  by_cases hsome : (dictGet m k).isSome = true
  · rw [if_pos hsome]
    induction m with
    | nil => simp [dictGet] at hsome
    | cons hd tl ih =>
      rw [List.map_cons]
      by_cases hk : hd.1 = k
      · rw [if_pos hk, dictGet_cons]
        simp
      · rw [if_neg hk, dictGet_cons]
        simp only [hk, if_false]
        apply ih
        rw [dictGet_cons] at hsome
        simpa [hk] using hsome
  · rw [if_neg hsome]
    induction m with
    | nil => simp [dictGet, List.find?]
    | cons hd tl ih =>
      rw [List.cons_append, dictGet_cons]
      by_cases hk : hd.1 = k
      · exact absurd (by rw [dictGet_cons]; simp [hk]) hsome
      · rw [if_neg hk]
        apply ih
        intro hx
        apply hsome
        rw [dictGet_cons]
        simpa [hk] using hx

theorem convRun_append (parse : String → Option Json) (idGen : Nat → String)
    (l1 l2 : List ConvCall) (s : ConvState) :
    convRun parse idGen s (l1 ++ l2) =
      ((convRun parse idGen (convRun parse idGen s l1).1 l2).1,
       (convRun parse idGen s l1).2 ++
         (convRun parse idGen (convRun parse idGen s l1).1 l2).2) := by
  induction l1 generalizing s with
  | nil => simp [convRun]
  | cons c rest ih =>
    rw [List.cons_append, convRun_cons, ih (convStep parse idGen s c).1, convRun_cons]
    dsimp only
    rw [List.append_assoc]

theorem anth_block_start (parse : String → Option Json) (idGen : Nat → String)
    (s : ConvState) (tid tname : String) :
    ∃ k,
      (convert_anthropic_event parse idGen s
        (AnthEvent.content_block_start (some (ContentBlock.tool_use tid tname)))).1.current_tool_index
        = some k ∧
      dictGet (convert_anthropic_event parse idGen s
        (AnthEvent.content_block_start (some (ContentBlock.tool_use tid tname)))).1.tool_calls_map
        k = some ⟨tid, tname, "", false⟩ ∧
      (convert_anthropic_event parse idGen s
        (AnthEvent.content_block_start (some (ContentBlock.tool_use tid tname)))).1.has_emitted_run_started
        = true ∧
      (∀ i, argsDeltasFor i (convert_anthropic_event parse idGen s
        (AnthEvent.content_block_start (some (ContentBlock.tool_use tid tname)))).2 = []) ∧
      (∀ i, toolEndsFor i (convert_anthropic_event parse idGen s
        (AnthEvent.content_block_start (some (ContentBlock.tool_use tid tname)))).2 = []) := by
  cases hf : s.has_emitted_run_started
  · unfold convert_anthropic_event
    rw [maybeEmitRunStarted_false s hf]
    dsimp only
    refine ⟨_, rfl, dictGet_dictSet_self _ _ _, rfl, ?_, ?_⟩ <;>
      intro i <;> simp [argsDeltasFor, toolEndsFor]
  · unfold convert_anthropic_event
    rw [maybeEmitRunStarted_true s hf]
    dsimp only
    refine ⟨_, rfl, dictGet_dictSet_self _ _ _, hf, ?_, ?_⟩ <;>
      intro i <;> simp [argsDeltasFor, toolEndsFor]

/-- Concatenation of a list of strings in order (Python `"".join`-style,
used to state the args round-trip law). -/
def strConcat : List String → String
  | [] => ""
  | s :: rest => s ++ strConcat rest

theorem anth_deltas_run (parse : String → Option Json) (idGen : Nat → String)
    (ps : List String) :
    ∀ (s : ConvState) (k : Nat) (id name acc : String) (st : Bool),
      s.has_emitted_run_started = true →
      s.current_tool_index = some k →
      dictGet s.tool_calls_map k = some ⟨id, name, acc, st⟩ →
      (convRun parse idGen s (ps.map (fun p =>
        ConvCall.anthropic (AnthEvent.content_block_delta
          (some (AnthDelta.input_json_delta p)))))).1.has_emitted_run_started = true ∧
      (convRun parse idGen s (ps.map (fun p =>
        ConvCall.anthropic (AnthEvent.content_block_delta
          (some (AnthDelta.input_json_delta p)))))).1.current_tool_index = some k ∧
      dictGet (convRun parse idGen s (ps.map (fun p =>
        ConvCall.anthropic (AnthEvent.content_block_delta
          (some (AnthDelta.input_json_delta p)))))).1.tool_calls_map k =
        some ⟨id, name, acc ++ strConcat ps, st || !ps.isEmpty⟩ ∧
      argsDeltasFor id (convRun parse idGen s (ps.map (fun p =>
        ConvCall.anthropic (AnthEvent.content_block_delta
          (some (AnthDelta.input_json_delta p)))))).2 = ps ∧
      (∀ i, toolEndsFor i (convRun parse idGen s (ps.map (fun p =>
        ConvCall.anthropic (AnthEvent.content_block_delta
          (some (AnthDelta.input_json_delta p)))))).2 = []) := by
  induction ps with
  | nil =>
    intro s k id name acc st hrs hidx hget
    refine ⟨hrs, hidx, ?_, rfl, fun i => rfl⟩
    simpa [strConcat, String.append_empty] using hget
  | cons p rest ih =>
    intro s k id name acc st hrs hidx hget
    rw [List.map_cons, convRun_cons]
    have hstep : convStep parse idGen s (ConvCall.anthropic (AnthEvent.content_block_delta
        (some (AnthDelta.input_json_delta p)))) =
        ({ s with tool_calls_map :=
            dictSet s.tool_calls_map k (⟨id, name, acc ++ p, true⟩ : ToolEntry) },
         (if st then [] else [AGEvent.toolCallStart id name k]) ++
           [AGEvent.toolCallArgs id p (acc ++ p)]) := by
      unfold convStep convert_anthropic_event
      rw [maybeEmitRunStarted_true s hrs]
      dsimp only
      rw [hidx]
      dsimp only
      rw [hget]
      cases st <;> simp
    rw [hstep]
    dsimp only
    obtain ⟨g1, g2, g3, g4, g5⟩ := ih
      { s with tool_calls_map :=
          dictSet s.tool_calls_map k (⟨id, name, acc ++ p, true⟩ : ToolEntry) }
      k id name (acc ++ p) true hrs hidx (dictGet_dictSet_self _ _ _)
    refine ⟨g1, g2, ?_, ?_, ?_⟩
    · rw [g3, strConcat, ← String.append_assoc]
      simp
    · rw [argsDeltasFor, List.filterMap_append, List.filterMap_append,
        ← argsDeltasFor, ← argsDeltasFor, ← argsDeltasFor, g4]
      cases st <;> simp [argsDeltasFor]
    · intro i
      rw [toolEndsFor, List.filter_append, List.filter_append,
        ← toolEndsFor, ← toolEndsFor, ← toolEndsFor, g5]
      cases st <;> simp [toolEndsFor]

theorem anth_block_stop (parse : String → Option Json) (idGen : Nat → String)
    (s : ConvState) (k : Nat) (id name input : String) (st : Bool)
    (hrs : s.has_emitted_run_started = true)
    (hidx : s.current_tool_index = some k)
    (hget : dictGet s.tool_calls_map k = some ⟨id, name, input, st⟩) :
    argsDeltasFor id
      (convert_anthropic_event parse idGen s AnthEvent.content_block_stop).2 = [] ∧
    toolEndsFor id
      (convert_anthropic_event parse idGen s AnthEvent.content_block_stop).2 =
      [AGEvent.toolCallEnd id name (parseOrEmpty parse input)] := by
  unfold convert_anthropic_event anthBlockStopTool
  rw [maybeEmitRunStarted_true s hrs]
  dsimp only
  rw [hidx]
  dsimp only
  rw [hget]
  cases st
  all_goals dsimp only
  all_goals repeat' split
  all_goals simp_all [argsDeltasFor, toolEndsFor]

/-- One complete Anthropic tool-use content block: `content_block_start`
(tool_use), one `input_json_delta` per argument fragment, then
`content_block_stop`. -/
def anthToolBlock (id name : String) (ps : List String) : List ConvCall :=
  ConvCall.anthropic (AnthEvent.content_block_start
      (some (ContentBlock.tool_use id name))) ::
    (ps.map (fun p => ConvCall.anthropic (AnthEvent.content_block_delta
      (some (AnthDelta.input_json_delta p)))) ++
     [ConvCall.anthropic AnthEvent.content_block_stop])

theorem c3_anth_block (parse : String → Option Json) (idGen : Nat → String)
    (s : ConvState) (id name : String) (ps : List String) :
    argsDeltasFor id (convRun parse idGen s (anthToolBlock id name ps)).2 = ps ∧
    toolEndsFor id (convRun parse idGen s (anthToolBlock id name ps)).2 =
      [AGEvent.toolCallEnd id name (parseOrEmpty parse (strConcat ps))] := by
  rw [anthToolBlock, convRun_cons, convRun_append]
  dsimp only
  obtain ⟨k, h1, h2, h3, h4, h5⟩ := anth_block_start parse idGen s id name
  have h1' : (convStep parse idGen s (ConvCall.anthropic (AnthEvent.content_block_start
      (some (ContentBlock.tool_use id name))))).1.current_tool_index = some k := h1
  have h2' : dictGet (convStep parse idGen s (ConvCall.anthropic
      (AnthEvent.content_block_start
        (some (ContentBlock.tool_use id name))))).1.tool_calls_map k =
      some ⟨id, name, "", false⟩ := h2
  have h3' : (convStep parse idGen s (ConvCall.anthropic (AnthEvent.content_block_start
      (some (ContentBlock.tool_use id name))))).1.has_emitted_run_started = true := h3
  obtain ⟨g1, g2, g3, g4, g5⟩ := anth_deltas_run parse idGen ps
    (convStep parse idGen s (ConvCall.anthropic (AnthEvent.content_block_start
      (some (ContentBlock.tool_use id name))))).1 k id name "" false h3' h1' h2'
  have hin : ("" : String) ++ strConcat ps = strConcat ps := rfl
  rw [hin] at g3
  obtain ⟨e1, e2⟩ := anth_block_stop parse idGen _ k id name (strConcat ps) (false || !ps.isEmpty)
    g1 g2 g3
  have e1b : argsDeltasFor id (convStep parse idGen (convRun parse idGen
      (convStep parse idGen s (ConvCall.anthropic (AnthEvent.content_block_start
        (some (ContentBlock.tool_use id name))))).1
      (ps.map (fun p => ConvCall.anthropic (AnthEvent.content_block_delta
        (some (AnthDelta.input_json_delta p)))))).1
      (ConvCall.anthropic AnthEvent.content_block_stop)).2 = [] := e1
  have e2b : toolEndsFor id (convStep parse idGen (convRun parse idGen
      (convStep parse idGen s (ConvCall.anthropic (AnthEvent.content_block_start
        (some (ContentBlock.tool_use id name))))).1
      (ps.map (fun p => ConvCall.anthropic (AnthEvent.content_block_delta
        (some (AnthDelta.input_json_delta p)))))).1
      (ConvCall.anthropic AnthEvent.content_block_stop)).2 =
      [AGEvent.toolCallEnd id name (parseOrEmpty parse (strConcat ps))] := e2
  have e1' : argsDeltasFor id (convRun parse idGen (convRun parse idGen
      (convStep parse idGen s (ConvCall.anthropic (AnthEvent.content_block_start
        (some (ContentBlock.tool_use id name))))).1
      (ps.map (fun p => ConvCall.anthropic (AnthEvent.content_block_delta
        (some (AnthDelta.input_json_delta p)))))).1
      [ConvCall.anthropic AnthEvent.content_block_stop]).2 = [] := by
    rw [convRun_cons]
    dsimp only
    rw [argsDeltasFor, List.filterMap_append, ← argsDeltasFor, ← argsDeltasFor, e1b]
    rfl
  have e2' : toolEndsFor id (convRun parse idGen (convRun parse idGen
      (convStep parse idGen s (ConvCall.anthropic (AnthEvent.content_block_start
        (some (ContentBlock.tool_use id name))))).1
      (ps.map (fun p => ConvCall.anthropic (AnthEvent.content_block_delta
        (some (AnthDelta.input_json_delta p)))))).1
      [ConvCall.anthropic AnthEvent.content_block_stop]).2 =
      [AGEvent.toolCallEnd id name (parseOrEmpty parse (strConcat ps))] := by
    rw [convRun_cons]
    dsimp only
    rw [toolEndsFor, List.filter_append, ← toolEndsFor, ← toolEndsFor, e2b]
    rfl
  have h4' : argsDeltasFor id (convStep parse idGen s (ConvCall.anthropic
      (AnthEvent.content_block_start (some (ContentBlock.tool_use id name))))).2 = [] := h4 id
  have h5' : toolEndsFor id (convStep parse idGen s (ConvCall.anthropic
      (AnthEvent.content_block_start (some (ContentBlock.tool_use id name))))).2 = [] := h5 id
  constructor
  · rw [argsDeltasFor, List.filterMap_append, List.filterMap_append,
      ← argsDeltasFor, ← argsDeltasFor, ← argsDeltasFor, h4', g4, e1']
    simp
  · rw [toolEndsFor, List.filter_append, List.filter_append,
      ← toolEndsFor, ← toolEndsFor, ← toolEndsFor, h5', g5 id, e2']
    simp

/-- First OpenAI chunk of a streamed tool call: index, id and name, no
arguments yet. -/
def oaiSeed (k : Nat) (i n : String) : OaiEvent :=
  ⟨none, some [⟨some k, some i, some n, none⟩], none, none⟩

/-- Argument-fragment OpenAI chunk for the call at index `k`. -/
def oaiFrag (k : Nat) (p : String) : OaiEvent :=
  ⟨none, some [⟨some k, none, none, some p⟩], none, none⟩

/-- Final OpenAI chunk carrying `finish_reason = "tool_calls"`. -/
def oaiFinishEv : OaiEvent := ⟨none, none, some "tool_calls", none⟩

/-- One OpenAI streamed tool call: seed, fragments, finish. -/
def oaiToolRun (k : Nat) (i n : String) (ps : List String) : List ConvCall :=
  ConvCall.openai (oaiSeed k i n) ::
    (ps.map (fun p => ConvCall.openai (oaiFrag k p)) ++ [ConvCall.openai oaiFinishEv])

theorem maybeEmitRunStarted_map (s : ConvState) :
    (maybeEmitRunStarted s).1.tool_calls_map = s.tool_calls_map := by
  unfold maybeEmitRunStarted
  split <;> rfl

theorem oaiContentStage_skip (p : ConvState × List AGEvent) (e : OaiEvent)
    (h : otruthy e.content = false) : oaiContentStage p e = p := by
  unfold oaiContentStage
  simp [h]

theorem oaiToolsStage_skip (p : ConvState × List AGEvent) (e : OaiEvent)
    (h : e.tool_calls = none) : oaiToolsStage p e = p := by
  unfold oaiToolsStage
  rw [h]

theorem oaiFinishStage_skip (parse : String → Option Json)
    (p : ConvState × List AGEvent) (e : OaiEvent)
    (h : otruthy e.finish_reason = false) : oaiFinishStage parse p e = p := by
  unfold oaiFinishStage
  simp [h]

theorem oai_seed_step (parse : String → Option Json) (s : ConvState) (k : Nat)
    (i n : String) (hmap : s.tool_calls_map = []) (hi : i ≠ "") :
    (convert_openai_event parse s (oaiSeed k i n)).1.tool_calls_map =
      [(k, ⟨i, n, "", true⟩)] ∧
    argsDeltasFor i (convert_openai_event parse s (oaiSeed k i n)).2 = [] ∧
    toolEndsFor i (convert_openai_event parse s (oaiSeed k i n)).2 = [] := by
  have hm0 : (maybeEmitRunStarted s).1.tool_calls_map = [] := by
    rw [maybeEmitRunStarted_map, hmap]
  have hstep : oaiToolCallStep (maybeEmitRunStarted s).1 (maybeEmitRunStarted s).2
      (⟨some k, some i, some n, none⟩ : OaiToolCallDelta) =
      ({ (maybeEmitRunStarted s).1 with
          tool_calls_map := [(k, (⟨i, n, "", true⟩ : ToolEntry))] },
       (maybeEmitRunStarted s).2 ++ [AGEvent.toolCallStart i n k]) := by
    unfold oaiToolCallStep
    dsimp only
    rw [hm0]
    by_cases hn : n = "" <;>
      simp [dictGet, dictSet, List.find?, otruthy, hi, hn]
  have htools : oaiToolsStage (maybeEmitRunStarted s) (oaiSeed k i n) =
      ({ (maybeEmitRunStarted s).1 with
          tool_calls_map := [(k, (⟨i, n, "", true⟩ : ToolEntry))] },
       (maybeEmitRunStarted s).2 ++ [AGEvent.toolCallStart i n k]) := by
    unfold oaiToolsStage oaiSeed
    dsimp only
    rw [List.foldl_cons, List.foldl_nil]
    exact hstep
  unfold convert_openai_event
  rw [oaiContentStage_skip _ _ (by rfl), htools,
    oaiFinishStage_skip _ _ _ (by rfl)]
  have hads : argsDeltasFor i (maybeEmitRunStarted s).2 = [] := by
    unfold maybeEmitRunStarted
    split <;> simp [argsDeltasFor]
  have hte : toolEndsFor i (maybeEmitRunStarted s).2 = [] := by
    unfold maybeEmitRunStarted
    split <;> simp [toolEndsFor]
  refine ⟨rfl, ?_, ?_⟩
  · rw [argsDeltasFor, List.filterMap_append, ← argsDeltasFor, ← argsDeltasFor, hads]
    simp [argsDeltasFor]
  · rw [toolEndsFor, List.filter_append, ← toolEndsFor, ← toolEndsFor, hte]
    simp [toolEndsFor]

theorem oai_frag_step (parse : String → Option Json) (s : ConvState) (k : Nat)
    (i n acc p : String) (hrs : s.has_emitted_run_started = true)
    (hmap : s.tool_calls_map = [(k, ⟨i, n, acc, true⟩)]) (hp : p ≠ "") :
    convert_openai_event parse s (oaiFrag k p) =
      ({ s with tool_calls_map := [(k, (⟨i, n, acc ++ p, true⟩ : ToolEntry))] },
       [AGEvent.toolCallArgs i p (acc ++ p)]) := by
  have hstep : oaiToolCallStep s [] (⟨some k, none, none, some p⟩ : OaiToolCallDelta) =
      ({ s with tool_calls_map := [(k, (⟨i, n, acc ++ p, true⟩ : ToolEntry))] },
       [AGEvent.toolCallArgs i p (acc ++ p)]) := by
    unfold oaiToolCallStep
    dsimp only
    rw [hmap]
    simp [dictGet, dictSet, List.find?, otruthy, hp]
  have htools : oaiToolsStage (s, ([] : List AGEvent)) (oaiFrag k p) =
      ({ s with tool_calls_map := [(k, (⟨i, n, acc ++ p, true⟩ : ToolEntry))] },
       [AGEvent.toolCallArgs i p (acc ++ p)]) := by
    unfold oaiToolsStage oaiFrag
    dsimp only
    rw [List.foldl_cons, List.foldl_nil]
    exact hstep
  unfold convert_openai_event
  rw [maybeEmitRunStarted_true s hrs, oaiContentStage_skip _ _ (by rfl), htools,
    oaiFinishStage_skip _ _ _ (by rfl)]

theorem oai_frags_run (parse : String → Option Json) (idGen : Nat → String)
    (ps : List String) :
    ∀ (s : ConvState) (k : Nat) (i n acc : String),
      s.has_emitted_run_started = true →
      s.tool_calls_map = [(k, ⟨i, n, acc, true⟩)] →
      (∀ p ∈ ps, p ≠ "") →
      (convRun parse idGen s (ps.map (fun p =>
        ConvCall.openai (oaiFrag k p)))).1.has_emitted_run_started = true ∧
      (convRun parse idGen s (ps.map (fun p =>
        ConvCall.openai (oaiFrag k p)))).1.tool_calls_map =
        [(k, ⟨i, n, acc ++ strConcat ps, true⟩)] ∧
      argsDeltasFor i (convRun parse idGen s (ps.map (fun p =>
        ConvCall.openai (oaiFrag k p)))).2 = ps ∧
      toolEndsFor i (convRun parse idGen s (ps.map (fun p =>
        ConvCall.openai (oaiFrag k p)))).2 = [] := by
  induction ps with
  | nil =>
    intro s k i n acc hrs hmap hps
    refine ⟨hrs, ?_, rfl, rfl⟩
    show s.tool_calls_map = [(k, (⟨i, n, acc ++ strConcat [], true⟩ : ToolEntry))]
    rw [hmap]
    simp [strConcat, String.append_empty]
  | cons p rest ih =>
    intro s k i n acc hrs hmap hps
    rw [List.map_cons, convRun_cons]
    have hstep : convStep parse idGen s (ConvCall.openai (oaiFrag k p)) =
        ({ s with tool_calls_map := [(k, (⟨i, n, acc ++ p, true⟩ : ToolEntry))] },
         [AGEvent.toolCallArgs i p (acc ++ p)]) :=
      oai_frag_step parse s k i n acc p hrs hmap (hps p (by simp))
    rw [hstep]
    dsimp only
    obtain ⟨g1, g2, g3, g4⟩ := ih
      { s with tool_calls_map := [(k, (⟨i, n, acc ++ p, true⟩ : ToolEntry))] }
      k i n (acc ++ p) hrs rfl (fun q hq => hps q (by simp [hq]))
    refine ⟨g1, ?_, ?_, ?_⟩
    · rw [g2, strConcat, ← String.append_assoc]
    · rw [argsDeltasFor, List.filterMap_append, ← argsDeltasFor, ← argsDeltasFor, g3]
      simp [argsDeltasFor]
    · rw [toolEndsFor, List.filter_append, ← toolEndsFor, ← toolEndsFor, g4]
      simp [toolEndsFor]

theorem oai_finish_step (parse : String → Option Json) (s : ConvState) (k : Nat)
    (i n acc : String) (hrs : s.has_emitted_run_started = true)
    (hmap : s.tool_calls_map = [(k, ⟨i, n, acc, true⟩)]) :
    argsDeltasFor i (convert_openai_event parse s oaiFinishEv).2 = [] ∧
    toolEndsFor i (convert_openai_event parse s oaiFinishEv).2 =
      [AGEvent.toolCallEnd i n (parseOrEmpty parse acc)] := by
  have hends : openaiToolEnds parse s.tool_calls_map =
      [AGEvent.toolCallEnd i n (parseOrEmpty parse acc)] := by
    rw [hmap]
    unfold openaiToolEnds
    simp
  unfold convert_openai_event
  rw [maybeEmitRunStarted_true s hrs, oaiContentStage_skip _ _ (by rfl),
    oaiToolsStage_skip _ _ (by rfl)]
  unfold oaiFinishStage oaiFinishEv
  dsimp only
  rw [hends]
  repeat' split
  all_goals refine ⟨?_, ?_⟩ <;> simp_all [argsDeltasFor, toolEndsFor, otruthy]

theorem c3_oai_run (parse : String → Option Json) (idGen : Nat → String)
    (s : ConvState) (k : Nat) (i n : String) (ps : List String)
    (hmap : s.tool_calls_map = []) (hi : i ≠ "") (hps : ∀ p ∈ ps, p ≠ "") :
    argsDeltasFor i (convRun parse idGen s (oaiToolRun k i n ps)).2 = ps ∧
    toolEndsFor i (convRun parse idGen s (oaiToolRun k i n ps)).2 =
      [AGEvent.toolCallEnd i n (parseOrEmpty parse (strConcat ps))] := by
  rw [oaiToolRun, convRun_cons, convRun_append]
  dsimp only
  have hseedmap : (convStep parse idGen s
      (ConvCall.openai (oaiSeed k i n))).1.tool_calls_map =
      [(k, (⟨i, n, "", true⟩ : ToolEntry))] := (oai_seed_step parse s k i n hmap hi).1
  have hseedargs : argsDeltasFor i (convStep parse idGen s
      (ConvCall.openai (oaiSeed k i n))).2 = [] := (oai_seed_step parse s k i n hmap hi).2.1
  have hseedends : toolEndsFor i (convStep parse idGen s
      (ConvCall.openai (oaiSeed k i n))).2 = [] := (oai_seed_step parse s k i n hmap hi).2.2
  have hseedrs : (convStep parse idGen s
      (ConvCall.openai (oaiSeed k i n))).1.has_emitted_run_started = true :=
    (convert_openai_event_facts parse s (oaiSeed k i n)).1
  obtain ⟨g1, g2, g3, g4⟩ := oai_frags_run parse idGen ps
    (convStep parse idGen s (ConvCall.openai (oaiSeed k i n))).1 k i n "" hseedrs hseedmap hps
  have g2' : (convRun parse idGen (convStep parse idGen s
      (ConvCall.openai (oaiSeed k i n))).1 (ps.map (fun p =>
        ConvCall.openai (oaiFrag k p)))).1.tool_calls_map =
      [(k, (⟨i, n, strConcat ps, true⟩ : ToolEntry))] := g2
  obtain ⟨f1, f2⟩ := oai_finish_step parse
    (convRun parse idGen (convStep parse idGen s (ConvCall.openai (oaiSeed k i n))).1
      (ps.map (fun p => ConvCall.openai (oaiFrag k p)))).1 k i n (strConcat ps) g1 g2'
  have f1' : argsDeltasFor i (convRun parse idGen (convRun parse idGen
      (convStep parse idGen s (ConvCall.openai (oaiSeed k i n))).1
      (ps.map (fun p => ConvCall.openai (oaiFrag k p)))).1
      [ConvCall.openai oaiFinishEv]).2 = [] := by
    rw [convRun_cons]
    dsimp only
    rw [argsDeltasFor, List.filterMap_append, ← argsDeltasFor, ← argsDeltasFor]
    rw [show argsDeltasFor i (convStep parse idGen (convRun parse idGen
      (convStep parse idGen s (ConvCall.openai (oaiSeed k i n))).1
      (ps.map (fun p => ConvCall.openai (oaiFrag k p)))).1
      (ConvCall.openai oaiFinishEv)).2 = [] from f1]
    rfl
  have f2' : toolEndsFor i (convRun parse idGen (convRun parse idGen
      (convStep parse idGen s (ConvCall.openai (oaiSeed k i n))).1
      (ps.map (fun p => ConvCall.openai (oaiFrag k p)))).1
      [ConvCall.openai oaiFinishEv]).2 =
      [AGEvent.toolCallEnd i n (parseOrEmpty parse (strConcat ps))] := by
    rw [convRun_cons]
    dsimp only
    rw [toolEndsFor, List.filter_append, ← toolEndsFor, ← toolEndsFor]
    rw [show toolEndsFor i (convStep parse idGen (convRun parse idGen
      (convStep parse idGen s (ConvCall.openai (oaiSeed k i n))).1
      (ps.map (fun p => ConvCall.openai (oaiFrag k p)))).1
      (ConvCall.openai oaiFinishEv)).2 =
      [AGEvent.toolCallEnd i n (parseOrEmpty parse (strConcat ps))] from f2]
    rfl
  constructor
  · rw [argsDeltasFor, List.filterMap_append, List.filterMap_append,
      ← argsDeltasFor, ← argsDeltasFor, ← argsDeltasFor, hseedargs, g3, f1']
    simp
  · rw [toolEndsFor, List.filter_append, List.filter_append,
      ← toolEndsFor, ← toolEndsFor, ← toolEndsFor, hseedends, g4, f2']
    simp

/-- C3: for every tool call in one converter run (an Anthropic tool_use block, or an
OpenAI streamed tool call), concatenating the `delta` fields of the TOOL_CALL_ARGS
events emitted for its toolCallId, in emission order, and parsing the concatenation as
JSON yields exactly the `input` field of the corresponding TOOL_CALL_END event; when
the concatenation is empty or fails to parse, the TOOL_CALL_END input is the empty
object `{}` and the converter returns normally (it is a total function, so no
exception is raised). -/
theorem c3_args_end_round_trip (parse : String → Option Json) (idGen : Nat → String)
    (s1 s2 : ConvState) (id name : String) (ps : List String)
    (k : Nat) (i n : String) (qs : List String)
    (hmap : s2.tool_calls_map = []) (hi : i ≠ "") (hqs : ∀ q ∈ qs, q ≠ "") :
    (argsDeltasFor id (convRun parse idGen s1 (anthToolBlock id name ps)).2 = ps ∧
     toolEndsFor id (convRun parse idGen s1 (anthToolBlock id name ps)).2 =
       [AGEvent.toolCallEnd id name (parseOrEmpty parse
         (strConcat (argsDeltasFor id
           (convRun parse idGen s1 (anthToolBlock id name ps)).2)))]) ∧
    (argsDeltasFor i (convRun parse idGen s2 (oaiToolRun k i n qs)).2 = qs ∧
     toolEndsFor i (convRun parse idGen s2 (oaiToolRun k i n qs)).2 =
       [AGEvent.toolCallEnd i n (parseOrEmpty parse
         (strConcat (argsDeltasFor i
           (convRun parse idGen s2 (oaiToolRun k i n qs)).2)))]) ∧
    (∀ str : String, str = "" ∨ parse str = none →
       parseOrEmpty parse str = Json.emptyObj) := by
  refine ⟨?_, ?_, ?_⟩
  · obtain ⟨h1, h2⟩ := c3_anth_block parse idGen s1 id name ps
    refine ⟨h1, ?_⟩
    rw [h1]
    exact h2
  · obtain ⟨h1, h2⟩ := c3_oai_run parse idGen s2 k i n qs hmap hi hqs
    refine ⟨h1, ?_⟩
    rw [h1]
    exact h2
  · intro str h
    rcases h with h | h
    · rw [parseOrEmpty, if_pos h]
    · rw [parseOrEmpty]
      split
      · rfl
      · rw [h]
        rfl

theorem c3_args_end_round_trip_witness :
    (ConvState.init c2idGen).tool_calls_map = [] ∧ ("call_1" : String) ≠ "" ∧
    (∀ q ∈ (["{}"] : List String), q ≠ "") ∧
    toolEndsFor "call_1"
      (convRun parse0 c2idGen (ConvState.init c2idGen)
        (oaiToolRun 0 "call_1" "get" ["{}"])).2 =
      [AGEvent.toolCallEnd "call_1" "get" (parseOrEmpty parse0 (strConcat ["{}"]))] := by
  refine ⟨rfl, by decide, by decide, ?_⟩
  have h := c3_args_end_round_trip parse0 c2idGen (ConvState.init c2idGen)
    (ConvState.init c2idGen) "tc1" "look" ["\x7b", "\x7d"] 0 "call_1" "get" ["{}"]
    rfl (by decide) (by decide)
  have h2 := h.2.1.2
  rw [h.2.1.1] at h2
  exact h2

/-! ### C10: TOOL_CALL_END frames in the engine -/

/-- Discriminator for TOOL_CALL_END chunks. -/
def isToolCallEndB : Chunk → Bool
  | .toolCallEnd _ _ => true
  | _ => false

/-- Discriminator for TOOL_CALL_START chunks. -/
def isToolCallStartB : Chunk → Bool
  | .toolCallStart _ _ _ => true
  | _ => false

/-- Discriminator for RUN_ERROR chunks. -/
def isRunErrorB : Chunk → Bool
  | .runError => true
  | _ => false

/-- Arguments string of the first map entry (insertion order) whose id matches. -/
def tcArgsOf (i : String) : TCMap → Option String
  | [] => none
  | (_, tc) :: rest => if tc.id = i then some tc.function.arguments else tcArgsOf i rest

/-- The TOOL_CALL_ARGS deltas for a given toolCallId, in stream order. -/
def chunkArgsFor (i : String) : List Chunk → List String
  | [] => []
  | Chunk.toolCallArgs j d :: rest =>
      if j = i then (d.getD "") :: chunkArgsFor i rest else chunkArgsFor i rest
  | _ :: rest => chunkArgsFor i rest

theorem tcArgsOf_add (i j : String) (d : Option String) (m : TCMap) :
    tcArgsOf i (add_tool_call_args_event m j d) =
      if i = j then (tcArgsOf i m).map (fun a => a ++ d.getD "") else tcArgsOf i m := by
  induction m with
  | nil =>
    rw [add_tool_call_args_event]
    split <;> rfl
  | cons p rest ih =>
    obtain ⟨k, tc⟩ := p
    rw [add_tool_call_args_event]
    by_cases hj : tc.id = j
    · rw [if_pos hj]
      by_cases hij : i = j
      · rw [if_pos hij, tcArgsOf, tcArgsOf, if_pos (by rw [hj, hij]),
          if_pos (by rw [hj, hij])]
        rfl
      · rw [if_neg hij, tcArgsOf, tcArgsOf,
          if_neg (by rw [hj]; exact fun h => hij h.symm),
          if_neg (by rw [hj]; exact fun h => hij h.symm)]
    · rw [if_neg hj]
      by_cases hi : tc.id = i
      · have hij : ¬ i = j := by
          intro h
          exact hj (h ▸ hi)
        rw [if_neg hij, tcArgsOf, tcArgsOf, if_pos hi, if_pos hi]
      · rw [tcArgsOf, tcArgsOf, if_neg hi, if_neg hi, ih]

theorem handle_stream_chunk_end (s : EngineState) (c : Chunk)
    (hc : isToolCallEndB c = true) : handle_stream_chunk s c = s := by
  cases c <;> simp [isToolCallEndB] at hc
  rfl

theorem handle_stream_chunk_early (s : EngineState) (c : Chunk)
    (hc : isRunErrorB c = false) :
    (handle_stream_chunk s c).early_termination = s.early_termination := by
  cases c <;> simp [isRunErrorB] at hc <;>
    first
    | rfl
    | (rw [handle_stream_chunk]
       split <;> rfl)
    | (rw [handle_stream_chunk, handle_run_finished_event]
       split <;> rfl)

theorem handle_stream_chunk_args (s : EngineState) (c : Chunk)
    (hc : isToolCallStartB c = false) (i : String) :
    tcArgsOf i (handle_stream_chunk s c).tool_calls_map =
      (tcArgsOf i s.tool_calls_map).map
        (fun a => a ++ strConcat (chunkArgsFor i [c])) := by
  cases c with
  | toolCallArgs j d =>
    show tcArgsOf i (add_tool_call_args_event s.tool_calls_map j d) = _
    rw [tcArgsOf_add]
    by_cases hij : i = j
    · rw [if_pos hij]
      cases tcArgsOf i s.tool_calls_map <;>
        simp [chunkArgsFor, hij, strConcat, String.append_empty, String.append_assoc]
    · rw [if_neg hij]
      have : chunkArgsFor i [Chunk.toolCallArgs j d] = [] := by
        rw [chunkArgsFor, if_neg (fun h => hij h.symm)]
        rfl
      rw [this]
      cases tcArgsOf i s.tool_calls_map <;> simp [strConcat, String.append_empty]
  | toolCallStart a b e => simp [isToolCallStartB] at hc
  | textMessageContent delta content =>
    have : (handle_stream_chunk s (Chunk.textMessageContent delta content)).tool_calls_map =
        s.tool_calls_map := by
      rw [handle_stream_chunk]
      split <;> rfl
    rw [this]
    cases tcArgsOf i s.tool_calls_map <;> simp [chunkArgsFor, strConcat, String.append_empty]
  | runFinished fr =>
    have : (handle_stream_chunk s (Chunk.runFinished fr)).tool_calls_map =
        s.tool_calls_map := by
      rw [handle_stream_chunk, handle_run_finished_event]
      split <;> rfl
    rw [this]
    cases tcArgsOf i s.tool_calls_map <;> simp [chunkArgsFor, strConcat, String.append_empty]
  | toolCallEnd a b =>
    show tcArgsOf i s.tool_calls_map = _
    cases tcArgsOf i s.tool_calls_map <;> simp [chunkArgsFor, strConcat, String.append_empty]
  | runError =>
    show tcArgsOf i s.tool_calls_map = _
    cases tcArgsOf i s.tool_calls_map <;> simp [chunkArgsFor, strConcat, String.append_empty]
  | custom =>
    show tcArgsOf i s.tool_calls_map = _
    cases tcArgsOf i s.tool_calls_map <;> simp [chunkArgsFor, strConcat, String.append_empty]
  | otherChunk =>
    show tcArgsOf i s.tool_calls_map = _
    cases tcArgsOf i s.tool_calls_map <;> simp [chunkArgsFor, strConcat, String.append_empty]

theorem consumeChunks_filter_end (s : EngineState) (chunks : List Chunk)
    (hterm : s.early_termination = false) :
    consumeChunks s chunks =
      consumeChunks s (chunks.filter (fun c => !isToolCallEndB c)) := by
  induction chunks generalizing s with
  | nil => rfl
  | cons c rest ih =>
    by_cases hc : isToolCallEndB c = true
    · rw [consumeChunks, handle_stream_chunk_end s c hc,
        List.filter_cons_of_neg (by rw [hc]; decide)]
      rw [if_neg (by rw [hterm]; exact Bool.false_ne_true)]
      exact ih s hterm
    · rw [consumeChunks, List.filter_cons_of_pos
        (by rw [Bool.eq_false_iff.mpr hc]; rfl), consumeChunks]
      by_cases he : (handle_stream_chunk s c).early_termination = true
      · rw [if_pos he, if_pos he]
      · rw [if_neg he, if_neg he]
        exact ih (handle_stream_chunk s c) (Bool.eq_false_iff.mpr he)

theorem consumeChunks_args (j : String) (chunks : List Chunk) (s : EngineState)
    (hterm : s.early_termination = false)
    (hstart : ∀ c ∈ chunks, isToolCallStartB c = false)
    (herr : ∀ c ∈ chunks, isRunErrorB c = false) :
    tcArgsOf j (consumeChunks s chunks).tool_calls_map =
      (tcArgsOf j s.tool_calls_map).map
        (fun a => a ++ strConcat (chunkArgsFor j chunks)) := by
  induction chunks generalizing s with
  | nil =>
    show tcArgsOf j s.tool_calls_map = _
    cases tcArgsOf j s.tool_calls_map <;> simp [chunkArgsFor, strConcat, String.append_empty]
  | cons c rest ih =>
    have he : (handle_stream_chunk s c).early_termination = false := by
      rw [handle_stream_chunk_early s c (herr c (List.mem_cons_self c rest))]
      exact hterm
    rw [consumeChunks, if_neg (by rw [he]; exact Bool.false_ne_true)]
    rw [ih (handle_stream_chunk s c) he
      (fun d hd => hstart d (List.mem_cons_of_mem c hd))
      (fun d hd => herr d (List.mem_cons_of_mem c hd))]
    rw [handle_stream_chunk_args s c (hstart c (List.mem_cons_self c rest)) j]
    have hsplit : strConcat (chunkArgsFor j (c :: rest)) =
        strConcat (chunkArgsFor j [c]) ++ strConcat (chunkArgsFor j rest) := by
      cases c with
      | toolCallArgs k d =>
        rw [chunkArgsFor, chunkArgsFor]
        by_cases hk : k = j
        · simp [hk, chunkArgsFor, strConcat, String.append_empty, String.append_assoc]
        · rw [if_neg hk, if_neg hk]
          show _ = strConcat [] ++ _
          rw [strConcat]
          exact (String.empty_append _).symm
      | textMessageContent a b =>
        show strConcat (chunkArgsFor j rest) = strConcat [] ++ _
        rw [strConcat]
        exact (String.empty_append _).symm
      | toolCallStart a b e =>
        show strConcat (chunkArgsFor j rest) = strConcat [] ++ _
        rw [strConcat]
        exact (String.empty_append _).symm
      | toolCallEnd a b =>
        show strConcat (chunkArgsFor j rest) = strConcat [] ++ _
        rw [strConcat]
        exact (String.empty_append _).symm
      | runFinished a =>
        show strConcat (chunkArgsFor j rest) = strConcat [] ++ _
        rw [strConcat]
        exact (String.empty_append _).symm
      | runError =>
        show strConcat (chunkArgsFor j rest) = strConcat [] ++ _
        rw [strConcat]
        exact (String.empty_append _).symm
      | custom =>
        show strConcat (chunkArgsFor j rest) = strConcat [] ++ _
        rw [strConcat]
        exact (String.empty_append _).symm
      | otherChunk =>
        show strConcat (chunkArgsFor j rest) = strConcat [] ++ _
        rw [strConcat]
        exact (String.empty_append _).symm
    rw [hsplit]
    cases tcArgsOf j s.tool_calls_map <;> simp [String.append_assoc]

/-- C10: a TOOL_CALL_END chunk from the adapter stream leaves the engine state
entirely unchanged (`_handle_stream_chunk` has no TOOL_CALL_END branch and never
calls `complete_tool_call`), so consuming a stream is the same as consuming it
with all TOOL_CALL_END chunks removed; consequently the accumulated arguments
string of any tracked tool call — the string later handed to
`execute_tool_calls` — is exactly its prior value followed by the concatenation
of the matching TOOL_CALL_ARGS deltas, never the END event's parsed input. -/
theorem c10_tool_call_end_frame (s : EngineState) (i : String) (inp : Option Json)
    (chunks : List Chunk) (j : String)
    (hterm : s.early_termination = false)
    (hstart : ∀ c ∈ chunks, isToolCallStartB c = false)
    (herr : ∀ c ∈ chunks, isRunErrorB c = false) :
    handle_stream_chunk s (Chunk.toolCallEnd i inp) = s ∧
    consumeChunks s chunks =
      consumeChunks s (chunks.filter (fun c => !isToolCallEndB c)) ∧
    tcArgsOf j (consumeChunks s chunks).tool_calls_map =
      (tcArgsOf j s.tool_calls_map).map
        (fun a => a ++ strConcat (chunkArgsFor j chunks)) :=
  ⟨rfl, consumeChunks_filter_end s chunks hterm,
    consumeChunks_args j chunks s hterm hstart herr⟩

theorem c10_tool_call_end_frame_witness :
    (EngineState.init []).early_termination = false ∧
    tcArgsOf "a" (consumeChunks (EngineState.init [])
        [Chunk.toolCallArgs "a" (some "x"), Chunk.toolCallEnd "a" none]).tool_calls_map =
      (tcArgsOf "a" (EngineState.init []).tool_calls_map).map
        (fun a => a ++ strConcat (chunkArgsFor "a"
          [Chunk.toolCallArgs "a" (some "x"), Chunk.toolCallEnd "a" none])) := by
  refine ⟨rfl, ?_⟩
  exact (c10_tool_call_end_frame (EngineState.init []) "a" none
    [Chunk.toolCallArgs "a" (some "x"), Chunk.toolCallEnd "a" none] "a" rfl
    (by intro c hc; fin_cases hc <;> rfl)
    (by intro c hc; fin_cases hc <;> rfl)).2.2

/-! ### C8: iteration bound on adapter calls -/

theorem handle_stream_chunk_counters (s : EngineState) (c : Chunk) :
    (handle_stream_chunk s c).chat_stream_calls = s.chat_stream_calls ∧
    (handle_stream_chunk s c).iteration_count = s.iteration_count ∧
    (handle_stream_chunk s c).cycle_phase = s.cycle_phase := by
  cases c <;>
    (unfold handle_stream_chunk handle_run_finished_event
     repeat' split) <;> exact ⟨rfl, rfl, rfl⟩

theorem consumeChunks_counters (l : List Chunk) : ∀ s : EngineState,
    (consumeChunks s l).chat_stream_calls = s.chat_stream_calls ∧
    (consumeChunks s l).iteration_count = s.iteration_count ∧
    (consumeChunks s l).cycle_phase = s.cycle_phase := by
  induction l with
  | nil => intro s; exact ⟨rfl, rfl, rfl⟩
  | cons c rest ih =>
    intro s
    rw [consumeChunks]
    obtain ⟨h1, h2, h3⟩ := handle_stream_chunk_counters s c
    split
    · exact ⟨h1, h2, h3⟩
    · obtain ⟨g1, g2, g3⟩ := ih (handle_stream_chunk s c)
      exact ⟨g1.trans h1, g2.trans h2, g3.trans h3⟩

theorem stream_model_response_counters (adapterStream : List ModelMessage → List Chunk)
    (s : EngineState) :
    (stream_model_response adapterStream s).chat_stream_calls = s.chat_stream_calls + 1 ∧
    (stream_model_response adapterStream s).iteration_count = s.iteration_count ∧
    (stream_model_response adapterStream s).cycle_phase = s.cycle_phase := by
  rw [stream_model_response]
  obtain ⟨h1, h2, h3⟩ := consumeChunks_counters
    (adapterStream s.messages) { s with chat_stream_calls := s.chat_stream_calls + 1 }
  exact ⟨h1, h2, h3⟩

theorem engine_process_tool_calls_counters (parse : String → Option Json)
    (dumps : Json → String) (tools : List Tool) (s : EngineState) :
    (engine_process_tool_calls parse dumps tools s).chat_stream_calls =
      s.chat_stream_calls ∧
    (engine_process_tool_calls parse dumps tools s).iteration_count =
      s.iteration_count ∧
    (engine_process_tool_calls parse dumps tools s).cycle_phase = s.cycle_phase := by
  unfold engine_process_tool_calls set_tool_phase add_assistant_tool_call_message
    append_tool_result_messages
  dsimp only
  repeat' split
  all_goals exact ⟨rfl, rfl, rfl⟩

theorem check_for_pending_tool_calls_counters (parse : String → Option Json)
    (dumps : Json → String) (tools : List Tool) (s : EngineState) :
    (check_for_pending_tool_calls parse dumps tools s).chat_stream_calls =
      s.chat_stream_calls ∧
    (check_for_pending_tool_calls parse dumps tools s).iteration_count =
      s.iteration_count ∧
    (check_for_pending_tool_calls parse dumps tools s).cycle_phase = s.cycle_phase := by
  unfold check_for_pending_tool_calls append_tool_result_messages
  dsimp only
  repeat' split
  all_goals exact ⟨rfl, rfl, rfl⟩

theorem chat_loop_calls_le (strategy : AgentLoopState → Bool)
    (adapterStream : List ModelMessage → List Chunk)
    (parse : String → Option Json) (dumps : Json → String) (tools : List Tool)
    (N : Nat)
    (hN : ∀ st : AgentLoopState, N ≤ st.iterationCount → strategy st = false) :
    ∀ (fuel : Nat) (s : EngineState),
      (s.cycle_phase = CyclePhase.processChat →
        s.chat_stream_calls = s.iteration_count ∧ s.chat_stream_calls ≤ N) →
      (s.cycle_phase = CyclePhase.executeToolCalls →
        s.chat_stream_calls = s.iteration_count + 1 ∧ s.chat_stream_calls ≤ N) →
      (chat_loop strategy adapterStream parse dumps tools fuel s).chat_stream_calls ≤ N := by
  intro fuel
  induction fuel with
  | zero =>
    intro s h1 h2
    rw [chat_loop]
    cases hp : s.cycle_phase
    · exact (h1 hp).2
    · exact (h2 hp).2
  | succ fuel ih =>
    intro s h1 h2
    rw [chat_loop]
    by_cases hsc : should_continue strategy s = true
    · rw [if_pos hsc]
      by_cases he : s.early_termination = true
      · rw [if_pos he]
        cases hp : s.cycle_phase
        · exact (h1 hp).2
        · exact (h2 hp).2
      · rw [if_neg he]
        dsimp only
        cases hp : s.cycle_phase with
        | processChat =>
          have hbc : begin_cycle s = begin_iteration s := by
            rw [begin_cycle, if_pos hp]
          rw [hbc]
          have hbr : (begin_iteration s).cycle_phase = CyclePhase.processChat := hp
          rw [if_pos hbr]
          obtain ⟨c1, c2, c3⟩ :=
            stream_model_response_counters adapterStream (begin_iteration s)
          have hne : ¬ s.cycle_phase = CyclePhase.executeToolCalls := by
            rw [hp]
            decide
          rw [should_continue, if_neg hne, Bool.and_eq_true] at hsc
          have hlt : s.iteration_count < N := by
            by_contra hge
            rw [hN ⟨s.iteration_count, s.messages, s.last_finish_reason⟩
              (Nat.le_of_not_lt hge)] at hsc
            exact absurd hsc.1 (by decide)
          have hcalls : (stream_model_response adapterStream
              (begin_iteration s)).chat_stream_calls ≤ N := by
            rw [c1]
            show s.chat_stream_calls + 1 ≤ N
            rw [(h1 hp).1]
            omega
          by_cases herr2 : (stream_model_response adapterStream
              (begin_iteration s)).errored = true
          · rw [if_pos herr2]
            exact hcalls
          · rw [if_neg herr2]
            have c3' : (stream_model_response adapterStream
                (begin_iteration s)).cycle_phase = CyclePhase.processChat := c3.trans hp
            have hec : end_cycle (stream_model_response adapterStream (begin_iteration s)) =
                { stream_model_response adapterStream (begin_iteration s) with
                  cycle_phase := CyclePhase.executeToolCalls } := by
              rw [end_cycle, if_pos c3']
            refine ih (end_cycle (stream_model_response adapterStream (begin_iteration s)))
              ?_ ?_
            · intro habs
              rw [hec] at habs
              exact absurd (show CyclePhase.executeToolCalls = CyclePhase.processChat
                from habs) (by decide)
            · intro _
              rw [hec]
              refine ⟨?_, ?_⟩
              · show (stream_model_response adapterStream
                    (begin_iteration s)).chat_stream_calls =
                  (stream_model_response adapterStream
                    (begin_iteration s)).iteration_count + 1
                rw [c1, c2]
                show s.chat_stream_calls + 1 = s.iteration_count + 1
                rw [(h1 hp).1]
              · exact hcalls
        | executeToolCalls =>
          have hbc : begin_cycle s = s := by
            rw [begin_cycle, if_neg (by rw [hp]; decide)]
          rw [hbc]
          rw [if_neg (show ¬ s.cycle_phase = CyclePhase.processChat by rw [hp]; decide)]
          obtain ⟨c1, c2, c3⟩ := engine_process_tool_calls_counters parse dumps tools s
          have hcalls : (engine_process_tool_calls parse dumps
              tools s).chat_stream_calls ≤ N := by
            rw [c1]
            exact (h2 hp).2
          by_cases herr2 : (engine_process_tool_calls parse dumps tools s).errored = true
          · rw [if_pos herr2]
            exact hcalls
          · rw [if_neg herr2]
            have c3' : (engine_process_tool_calls parse dumps tools s).cycle_phase =
                CyclePhase.executeToolCalls := c3.trans hp
            have hec : end_cycle (engine_process_tool_calls parse dumps tools s) =
                { engine_process_tool_calls parse dumps tools s with
                  cycle_phase := CyclePhase.processChat
                  iteration_count :=
                    (engine_process_tool_calls parse dumps tools s).iteration_count + 1 } := by
              rw [end_cycle, if_neg (by rw [c3']; decide)]
            refine ih (end_cycle (engine_process_tool_calls parse dumps tools s)) ?_ ?_
            · intro _
              rw [hec]
              refine ⟨?_, ?_⟩
              · show (engine_process_tool_calls parse dumps tools s).chat_stream_calls =
                  (engine_process_tool_calls parse dumps tools s).iteration_count + 1
                rw [c1, c2]
                exact (h2 hp).1
              · exact hcalls
            · intro habs
              rw [hec] at habs
              exact absurd (show CyclePhase.processChat = CyclePhase.executeToolCalls
                from habs) (by decide)
    · rw [if_neg hsc]
      cases hp : s.cycle_phase
      · exact (h1 hp).2
      · exact (h2 hp).2

/-- C8: if the loop strategy returns false whenever `iterationCount ≥ N`, a
single `chat()` run starting from a fresh engine calls `adapter.chat_stream`
at most N times (one call per PROCESS_CHAT phase); and the iteration counter
advances only when `_end_cycle` closes an EXECUTE_TOOL_CALLS phase — ending a
PROCESS_CHAT phase leaves it unchanged. -/
theorem c8_iteration_bound (strategy : AgentLoopState → Bool)
    (adapterStream : List ModelMessage → List Chunk)
    (parse : String → Option Json) (dumps : Json → String) (tools : List Tool)
    (N fuel : Nat) (msgs : List ModelMessage)
    (hN : ∀ st : AgentLoopState, N ≤ st.iterationCount → strategy st = false) :
    (chat_run strategy adapterStream parse dumps tools fuel
      (EngineState.init msgs)).chat_stream_calls ≤ N ∧
    (∀ s : EngineState, s.cycle_phase = CyclePhase.processChat →
      (end_cycle s).iteration_count = s.iteration_count) ∧
    (∀ s : EngineState, s.cycle_phase = CyclePhase.executeToolCalls →
      (end_cycle s).iteration_count = s.iteration_count + 1) := by
  refine ⟨?_, ?_, ?_⟩
  · rw [chat_run]
    obtain ⟨c1, c2, c3⟩ := check_for_pending_tool_calls_counters parse dumps tools
      (EngineState.init msgs)
    by_cases he : (check_for_pending_tool_calls parse dumps tools
        (EngineState.init msgs)).errored = true
    · rw [if_pos he, c1]
      exact Nat.zero_le N
    · rw [if_neg he]
      by_cases hw : (check_for_pending_tool_calls parse dumps tools
          (EngineState.init msgs)).tool_phase = ToolPhaseResult.wait
      · rw [if_pos hw, c1]
        exact Nat.zero_le N
      · rw [if_neg hw]
        refine chat_loop_calls_le strategy adapterStream parse dumps tools N hN fuel _ ?_ ?_
        · intro _
          rw [c1, c2]
          exact ⟨rfl, Nat.zero_le N⟩
        · intro habs
          rw [c3] at habs
          exact absurd (show CyclePhase.processChat = CyclePhase.executeToolCalls
            from habs) (by decide)
  · intro s hp
    rw [end_cycle, if_pos hp]
  · intro s hp
    rw [end_cycle, if_neg (by rw [hp]; decide)]

theorem c8_iteration_bound_witness :
    (chat_run (fun _ => false) (fun _ => []) parse0 (fun _ => "") [] 5
      (EngineState.init [])).chat_stream_calls ≤ 0 :=
  (c8_iteration_bound (fun _ => false) (fun _ => []) parse0 (fun _ => "") [] 0 5 []
    (fun _ _ => rfl)).1
